import Mathlib

set_option autoImplicit false

/-!
Verification of the crd-migration-tool core (package `internal`):
the dependency graph and its DFS topological sort (`graph.go`),
the created-items tracker (`created_items_tracker.go`),
key rewriting (`updateMapKeys`), per-item preparation
(`prepareForCreate`) and the migration passes
(`MigrateAllResources` / `MigrateSomeResources`).

Go `map[string]V` values are modelled as association lists with
overwrite-on-insert (`SMap`); where Go iterates over a map, the
(unspecified) iteration order appears as an explicit list parameter
or as the list order of the modelled map.
-/

namespace CrdMigration

/-! ## Association-list model of Go's `map[string]V` -/

abbrev SMap (V : Type) := List (String × V)

def SMap.erase {V : Type} (m : SMap V) (k : String) : SMap V :=
  m.filter (fun p => p.1 != k)

def SMap.insert {V : Type} (m : SMap V) (k : String) (v : V) : SMap V :=
  (k, v) :: m.erase k

def SMap.lookup {V : Type} (m : SMap V) (k : String) : Option V :=
  (m.find? (fun p => p.1 == k)).map (·.2)

theorem SMap.lookup_nil {V : Type} (k : String) : SMap.lookup ([] : SMap V) k = none := rfl

theorem SMap.lookup_cons {V : Type} (p : String × V) (m : SMap V) (k : String) :
    SMap.lookup (p :: m) k = if p.1 = k then some p.2 else m.lookup k := by
  by_cases h : p.1 = k
  · simp [SMap.lookup, List.find?_cons_of_pos, h]
  · simp [SMap.lookup, List.find?_cons_of_neg, h]

theorem SMap.erase_nil {V : Type} (k : String) : SMap.erase ([] : SMap V) k = [] := rfl

theorem SMap.erase_cons {V : Type} (p : String × V) (m : SMap V) (k : String) :
    SMap.erase (p :: m) k = if p.1 = k then m.erase k else p :: m.erase k := by
  by_cases h : p.1 = k <;> simp [SMap.erase, List.filter_cons, h]

theorem SMap.lookup_erase_self {V : Type} (m : SMap V) (k : String) :
    (m.erase k).lookup k = none := by
  induction m with
  | nil => rfl
  | cons p t ih =>
    rw [SMap.erase_cons]
    by_cases h : p.1 = k
    · simpa [h] using ih
    · simpa [SMap.lookup_cons, h] using ih

theorem SMap.lookup_erase_of_ne {V : Type} (m : SMap V) (k k' : String) (h : k' ≠ k) :
    (m.erase k).lookup k' = m.lookup k' := by
  induction m with
  | nil => rfl
  | cons p t ih =>
    rw [SMap.erase_cons]
    by_cases hp : p.1 = k
    · have hpk : p.1 ≠ k' := by rw [hp]; exact fun he => h he.symm
      rw [if_pos hp, SMap.lookup_cons, if_neg hpk, ih]
    · rw [if_neg hp, SMap.lookup_cons, SMap.lookup_cons, ih]

theorem SMap.lookup_insert_self {V : Type} (m : SMap V) (k : String) (v : V) :
    (m.insert k v).lookup k = some v := by
  simp [SMap.insert, SMap.lookup_cons]

theorem SMap.lookup_insert_of_ne {V : Type} (m : SMap V) (k k' : String) (v : V) (h : k' ≠ k) :
    (m.insert k v).lookup k' = m.lookup k' := by
  have hk : k ≠ k' := fun he => h he.symm
  rw [SMap.insert, SMap.lookup_cons, SMap.lookup_erase_of_ne m k k' h]
  simp [hk]

theorem SMap.erase_erase_self {V : Type} (m : SMap V) (k : String) :
    (m.erase k).erase k = m.erase k := by
  simp [SMap.erase, List.filter_filter]

theorem SMap.erase_insert_self {V : Type} (m : SMap V) (k : String) (v : V) :
    (m.insert k v).erase k = m.erase k := by
  show SMap.erase ((k, v) :: m.erase k) k = m.erase k
  rw [SMap.erase_cons, if_pos rfl, SMap.erase_erase_self]

theorem SMap.insert_insert_self {V : Type} (m : SMap V) (k : String) (v w : V) :
    (m.insert k w).insert k v = m.insert k v := by
  show (k, v) :: (m.insert k w).erase k = (k, v) :: m.erase k
  rw [SMap.erase_insert_self]

/-! ## The dependency graph (`graph.go`) -/

/-- The `graph` struct: a node set and an adjacency map.  `nodes` keeps the
insertion order of `addEdge` and has no duplicates by construction. -/
structure Graph where
  nodes : List String
  edges : SMap (List String)

def Graph.empty : Graph := ⟨[], []⟩

/-- `graph.addEdge(from, to)`: register both endpoints as nodes and append
`to'` to the edge list of `from'`. -/
def Graph.addEdge (g : Graph) (from' to' : String) : Graph :=
  let g1 := if from' ∈ g.nodes then g else { g with nodes := g.nodes ++ [from'] }
  let g2 := if to' ∈ g1.nodes then g1 else { g1 with nodes := g1.nodes ++ [to'] }
  let es := (g2.edges.lookup from').getD []
  { g2 with edges := g2.edges.insert from' (es ++ [to']) }

/-- A graph built by a sequence of `addEdge` calls. -/
def Graph.ofEdges (es : List (String × String)) : Graph :=
  es.foldl (fun g e => g.addEdge e.1 e.2) Graph.empty

/-- The successor list of a node: `d.g.edges[node]` (a missing key is `nil`). -/
def Graph.succs (g : Graph) (n : String) : List String :=
  (g.edges.lookup n).getD []

def Graph.Edge (g : Graph) (u v : String) : Prop := v ∈ g.succs u

instance (g : Graph) (u v : String) : Decidable (g.Edge u v) := by
  unfold Graph.Edge; infer_instance

/-- `u` reaches `v` by a nonempty path of edges. -/
def Graph.Reaches (g : Graph) : String → String → Prop :=
  Relation.TransGen g.Edge

/-- The edge set has no (directed) cycle. -/
def Graph.Acyclic (g : Graph) : Prop := ∀ n, ¬ g.Reaches n n

/-- The state of the `dfsSort` struct (the graph itself is passed
separately). `sorted` is built by prepending, as in the Go code. -/
structure DfsSort where
  temp : List String
  permanent : List String
  sorted : List String

/-- The `for _, neighbor := range d.g.edges[node]` loop inside `recurse`:
run `step` (the recursive visit) on each neighbour in turn, stopping at the
first error. -/
def recurseList (step : String → DfsSort → Option DfsSort) :
    List String → DfsSort → Option DfsSort
  | [], d => some d
  | n :: ns, d =>
    match step n d with
    | none => none
    | some d2 => recurseList step ns d2

/-- `dfsSort.recurse`.  The fuel argument makes the recursion structural;
`none` covers both the `cycle` error and fuel exhaustion (`sort` supplies
enough fuel that exhaustion never happens on runs the theorems speak about). -/
def recurse (g : Graph) : Nat → String → DfsSort → Option DfsSort
  | 0, _, _ => none
  | fuel + 1, node, d =>
    if node ∈ d.permanent then some d
    else if node ∈ d.temp then none
    else
      match recurseList (fun n d' => recurse g fuel n d') (g.succs node)
          { d with temp := node :: d.temp } with
      | none => none
      | some d2 => some { d2 with permanent := node :: d2.permanent, sorted := node :: d2.sorted }

/-- `dfsSort.sort`: iterate over the node set (in the map-iteration order
`order`), skipping already-marked nodes. -/
def dfsSortRun (g : Graph) (fuel : Nat) : List String → DfsSort → Option DfsSort
  | [], d => some d
  | n :: ns, d =>
    if n ∈ d.temp ∨ n ∈ d.permanent then dfsSortRun g fuel ns d
    else
      match recurse g fuel n d with
      | none => none
      | some d2 => dfsSortRun g fuel ns d2

/-- `graph.sort()`: on error the Go code returns `nil, err`, i.e. no partial
result; here that is `none`.  `order` is the unspecified iteration order of
the `g.nodes` map. -/
def Graph.sortWith (g : Graph) (order : List String) : Option (List String) :=
  match dfsSortRun g (g.nodes.length + 1) order ⟨[], [], []⟩ with
  | none => none
  | some d => some d.sorted

/-! ### Facts about `addEdge` / `ofEdges` -/

theorem Graph.succs_empty (u : String) : Graph.empty.succs u = [] := rfl

theorem Graph.mem_nodes_addEdge (g : Graph) (a b x : String) :
    x ∈ (g.addEdge a b).nodes ↔ x ∈ g.nodes ∨ x = a ∨ x = b := by
  simp only [Graph.addEdge]
  split_ifs with h1 h2 h2 <;>
    (constructor
     · intro h
       simp only [List.mem_append, List.mem_cons, List.mem_singleton] at h
       tauto
     · rintro (h | rfl | rfl) <;> simp_all)

theorem Graph.nodes_nodup_addEdge (g : Graph) (a b : String) (h : g.nodes.Nodup) :
    (g.addEdge a b).nodes.Nodup := by
  simp only [Graph.addEdge]
  split_ifs with h1 h2 h2 <;> simp_all [List.nodup_append] <;> tauto

theorem Graph.succs_addEdge (g : Graph) (a b u : String) :
    (g.addEdge a b).succs u = if u = a then g.succs a ++ [b] else g.succs u := by
  by_cases h : u = a
  · subst h
    rw [if_pos rfl]
    simp only [Graph.addEdge]
    split_ifs <;> (unfold Graph.succs; simp [SMap.lookup_insert_self])
  · rw [if_neg h]
    simp only [Graph.addEdge]
    split_ifs <;> (unfold Graph.succs; simp [SMap.lookup_insert_of_ne _ a u _ h])

theorem Graph.foldl_addEdge_succs (es : List (String × String)) :
    ∀ (g : Graph) (u v : String),
      v ∈ (es.foldl (fun g e => g.addEdge e.1 e.2) g).succs u ↔
        v ∈ g.succs u ∨ (u, v) ∈ es := by
  induction es with
  | nil => intro g u v; simp
  | cons e es ih =>
    intro g u v
    rw [List.foldl_cons, ih, Graph.succs_addEdge]
    by_cases h : u = e.1
    · subst h
      rw [if_pos rfl]
      simp only [List.mem_append, List.mem_cons, Prod.ext_iff, List.mem_singleton]
      tauto
    · have hne : ((u, v) = e) ↔ False :=
        ⟨fun he => h (congrArg Prod.fst he), False.elim⟩
      simp only [if_neg h, List.mem_cons, hne]
      tauto

theorem Graph.succs_ofEdges (es : List (String × String)) (u v : String) :
    v ∈ (Graph.ofEdges es).succs u ↔ (u, v) ∈ es := by
  rw [Graph.ofEdges, Graph.foldl_addEdge_succs, Graph.succs_empty]
  simp [Graph.empty]

theorem Graph.foldl_addEdge_nodes (es : List (String × String)) :
    ∀ (g : Graph) (x : String),
      x ∈ (es.foldl (fun g e => g.addEdge e.1 e.2) g).nodes ↔
        x ∈ g.nodes ∨ ∃ e ∈ es, x = e.1 ∨ x = e.2 := by
  induction es with
  | nil => intro g x; simp
  | cons e es ih =>
    intro g x
    rw [List.foldl_cons, ih, Graph.mem_nodes_addEdge]
    simp only [List.mem_cons]
    constructor
    · rintro ((h | h | h) | ⟨e', he', h⟩)
      · exact Or.inl h
      · exact Or.inr ⟨e, Or.inl rfl, Or.inl h⟩
      · exact Or.inr ⟨e, Or.inl rfl, Or.inr h⟩
      · exact Or.inr ⟨e', Or.inr he', h⟩
    · rintro (h | ⟨e', he' | he', h⟩)
      · exact Or.inl (Or.inl h)
      · subst he'; exact Or.inl (Or.inr h)
      · exact Or.inr ⟨e', he', h⟩

theorem Graph.mem_nodes_ofEdges (es : List (String × String)) (x : String) :
    x ∈ (Graph.ofEdges es).nodes ↔ ∃ e ∈ es, x = e.1 ∨ x = e.2 := by
  rw [Graph.ofEdges, Graph.foldl_addEdge_nodes]
  simp [Graph.empty]

theorem Graph.nodes_nodup_ofEdges (es : List (String × String)) :
    (Graph.ofEdges es).nodes.Nodup := by
  rw [Graph.ofEdges]
  have : ∀ (g : Graph), g.nodes.Nodup →
      (es.foldl (fun g e => g.addEdge e.1 e.2) g).nodes.Nodup := by
    induction es with
    | nil => intro g h; exact h
    | cons e es ih =>
      intro g h
      exact ih _ (Graph.nodes_nodup_addEdge g e.1 e.2 h)
  exact this Graph.empty List.nodup_nil

theorem Graph.closed_ofEdges (es : List (String × String)) (u v : String)
    (h : v ∈ (Graph.ofEdges es).succs u) : v ∈ (Graph.ofEdges es).nodes := by
  rw [Graph.succs_ofEdges] at h
  rw [Graph.mem_nodes_ofEdges]
  exact ⟨(u, v), h, Or.inr rfl⟩

theorem Graph.src_mem_ofEdges (es : List (String × String)) (u v : String)
    (h : v ∈ (Graph.ofEdges es).succs u) : u ∈ (Graph.ofEdges es).nodes := by
  rw [Graph.succs_ofEdges] at h
  rw [Graph.mem_nodes_ofEdges]
  exact ⟨(u, v), h, Or.inl rfl⟩

/-! ### How one (successful) DFS visit changes the marking state -/

/-- Relation between the marking state before and after a successful visit:
both mark sets only grow, nodes newly marked permanent were not previously
in progress, and nodes newly marked temporary end up permanent. -/
structure DfsLe (d d' : DfsSort) : Prop where
  tempLe : ∀ x ∈ d.temp, x ∈ d'.temp
  permLe : ∀ x ∈ d.permanent, x ∈ d'.permanent
  permNew : ∀ x ∈ d'.permanent, x ∈ d.permanent ∨ x ∉ d.temp
  tempNew : ∀ x ∈ d'.temp, x ∈ d.temp ∨ x ∈ d'.permanent

theorem DfsLe.dfsle_refl (d : DfsSort) : DfsLe d d :=
  ⟨fun _ h => h, fun _ h => h, fun _ h => Or.inl h, fun _ h => Or.inl h⟩

theorem DfsLe.dfsle_trans {a b c : DfsSort} (h1 : DfsLe a b) (h2 : DfsLe b c) : DfsLe a c := by
  refine ⟨fun x hx => h2.tempLe x (h1.tempLe x hx),
          fun x hx => h2.permLe x (h1.permLe x hx), ?_, ?_⟩
  · intro x hx
    rcases h2.permNew x hx with h | h
    · exact h1.permNew x h
    · exact Or.inr (fun hc => h (h1.tempLe x hc))
  · intro x hx
    rcases h2.tempNew x hx with h | h
    · rcases h1.tempNew x h with h' | h'
      · exact Or.inl h'
      · exact Or.inr (h2.permLe x h')
    · exact Or.inr h

theorem recurseList_frame (step : String → DfsSort → Option DfsSort)
    (hstep : ∀ n d d', step n d = some d' → DfsLe d d' ∧ n ∈ d'.permanent) :
    ∀ (ns : List String) (d d' : DfsSort), recurseList step ns d = some d' →
      DfsLe d d' ∧ ∀ n ∈ ns, n ∈ d'.permanent := by
  intro ns
  induction ns with
  | nil =>
    intro d d' h
    rw [recurseList] at h
    cases h
    exact ⟨DfsLe.dfsle_refl d, by simp⟩
  | cons n ns ih =>
    intro d d' h
    rw [recurseList] at h
    cases hn : step n d with
    | none => rw [hn] at h; cases h
    | some d2 =>
      rw [hn] at h
      obtain ⟨hle1, hperm1⟩ := hstep n d d2 hn
      obtain ⟨hle2, hperm2⟩ := ih d2 d' h
      refine ⟨hle1.dfsle_trans hle2, ?_⟩
      intro x hx
      rcases List.mem_cons.mp hx with rfl | hx
      · exact hle2.permLe x hperm1
      · exact hperm2 x hx

theorem recurse_frame (g : Graph) :
    ∀ (fuel : Nat) (node : String) (d d' : DfsSort),
      recurse g fuel node d = some d' → DfsLe d d' ∧ node ∈ d'.permanent := by
  intro fuel
  induction fuel with
  | zero => intro node d d' h; rw [recurse] at h; cases h
  | succ fuel ih =>
    intro node d d' h
    rw [recurse] at h
    by_cases hperm : node ∈ d.permanent
    · rw [if_pos hperm] at h
      cases h
      exact ⟨DfsLe.dfsle_refl d, hperm⟩
    rw [if_neg hperm] at h
    by_cases htemp : node ∈ d.temp
    · rw [if_pos htemp] at h; cases h
    rw [if_neg htemp] at h
    cases hrl : recurseList (fun n d' => recurse g fuel n d') (g.succs node)
        { d with temp := node :: d.temp } with
    | none => rw [hrl] at h; cases h
    | some d2 =>
      rw [hrl] at h
      cases h
      obtain ⟨hle, hsuccs⟩ := recurseList_frame _ (fun n a b hab => ih n a b hab) _ _ _ hrl
      constructor
      · constructor
        · intro x hx
          exact hle.tempLe x (List.mem_cons_of_mem _ hx)
        · intro x hx
          exact List.mem_cons_of_mem _ (hle.permLe x hx)
        · intro x hx
          rcases List.mem_cons.mp hx with rfl | hx
          · exact Or.inr htemp
          · rcases hle.permNew x hx with h | h
            · exact Or.inl h
            · exact Or.inr (fun hc => h (List.mem_cons_of_mem _ hc))
        · intro x hx
          rcases hle.tempNew x hx with h | h
          · rcases List.mem_cons.mp h with rfl | h
            · exact Or.inr (List.mem_cons_self _ _)
            · exact Or.inl h
          · exact Or.inr (List.mem_cons_of_mem _ h)
      · exact List.mem_cons_self _ _

/-! ### Soundness invariant: `sorted` is a topological prefix-closed list -/

/-- Every successor of an element of `l` occurs strictly later in `l`. -/
def topoP (g : Graph) (l : List String) : Prop :=
  ∀ u l1 l2, l = l1 ++ u :: l2 → ∀ v ∈ g.succs u, v ∈ l2

theorem topoP_nil (g : Graph) : topoP g [] := by
  intro u l1 l2 h
  exact absurd h (by simp)

theorem topoP_cons (g : Graph) (node : String) (l : List String)
    (hnotin : node ∉ l) (hsuccs : ∀ v ∈ g.succs node, v ∈ l) (h : topoP g l) :
    topoP g (node :: l) := by
  intro u l1 l2 heq v hv
  cases l1 with
  | nil =>
    simp only [List.nil_append, List.cons.injEq] at heq
    obtain ⟨h1, h2⟩ := heq
    subst h1
    subst h2
    exact hsuccs v hv
  | cons a l1' =>
    simp only [List.cons_append, List.cons.injEq] at heq
    obtain ⟨_, h2⟩ := heq
    exact h u l1' l2 h2 v hv

/-- The invariant maintained by every DFS state reachable from the initial
one: `sorted` mirrors `permanent` (without duplicates), `permanent ⊆ temp`,
`temp` only holds graph nodes, and `sorted` is topologically closed. -/
structure DfsInv (g : Graph) (d : DfsSort) : Prop where
  nodup : d.sorted.Nodup
  mem_sorted : ∀ x, x ∈ d.sorted ↔ x ∈ d.permanent
  perm_temp : ∀ x ∈ d.permanent, x ∈ d.temp
  temp_nodes : ∀ x ∈ d.temp, x ∈ g.nodes
  topo : topoP g d.sorted

theorem recurseList_inv (g : Graph) (step : String → DfsSort → Option DfsSort)
    (hframe : ∀ n d d', step n d = some d' → DfsLe d d' ∧ n ∈ d'.permanent)
    (hstep : ∀ n d d', n ∈ g.nodes → DfsInv g d → step n d = some d' → DfsInv g d') :
    ∀ (ns : List String) (d d' : DfsSort), (∀ n ∈ ns, n ∈ g.nodes) → DfsInv g d →
      recurseList step ns d = some d' → DfsInv g d' := by
  intro ns
  induction ns with
  | nil =>
    intro d d' _ hinv h
    rw [recurseList] at h
    cases h
    exact hinv
  | cons n ns ih =>
    intro d d' hns hinv h
    rw [recurseList] at h
    cases hn : step n d with
    | none => rw [hn] at h; cases h
    | some d2 =>
      rw [hn] at h
      have hinv2 := hstep n d d2 (hns n (List.mem_cons_self _ _)) hinv hn
      exact ih d2 d' (fun x hx => hns x (List.mem_cons_of_mem _ hx)) hinv2 h

theorem recurse_inv (g : Graph)
    (hclosed : ∀ u v, v ∈ g.succs u → v ∈ g.nodes) :
    ∀ (fuel : Nat) (node : String) (d d' : DfsSort), node ∈ g.nodes → DfsInv g d →
      recurse g fuel node d = some d' → DfsInv g d' := by
  intro fuel
  induction fuel with
  | zero => intro node d d' _ _ h; rw [recurse] at h; cases h
  | succ fuel ih =>
    intro node d d' hnode hinv h
    rw [recurse] at h
    by_cases hperm : node ∈ d.permanent
    · rw [if_pos hperm] at h
      cases h
      exact hinv
    rw [if_neg hperm] at h
    by_cases htemp : node ∈ d.temp
    · rw [if_pos htemp] at h; cases h
    rw [if_neg htemp] at h
    cases hrl : recurseList (fun n d' => recurse g fuel n d') (g.succs node)
        { d with temp := node :: d.temp } with
    | none => rw [hrl] at h; cases h
    | some d2 =>
      rw [hrl] at h
      cases h
      -- invariant for the state with `node` pushed on temp
      have hinv1 : DfsInv g { d with temp := node :: d.temp } := by
        refine ⟨hinv.nodup, hinv.mem_sorted, ?_, ?_, hinv.topo⟩
        · intro x hx
          exact List.mem_cons_of_mem _ (hinv.perm_temp x hx)
        · intro x hx
          rcases List.mem_cons.mp hx with rfl | hx
          · exact hnode
          · exact hinv.temp_nodes x hx
      have hinv2 : DfsInv g d2 :=
        recurseList_inv g _ (fun n a b hab => recurse_frame g fuel n a b hab)
          (fun n a b hn ha hab => ih n a b hn ha hab) _ _ _
          (fun v hv => hclosed node v hv) hinv1 hrl
      obtain ⟨hle, hsuccs⟩ :=
        recurseList_frame _ (fun n a b hab => recurse_frame g fuel n a b hab) _ _ _ hrl
      have hnode_not_sorted : node ∉ d2.sorted := by
        intro hc
        have : node ∈ d2.permanent := (hinv2.mem_sorted node).mp hc
        rcases hle.permNew node this with h' | h'
        · exact hperm h'
        · exact h' (List.mem_cons_self _ _)
      refine ⟨?_, ?_, ?_, ?_, ?_⟩
      · exact List.Nodup.cons hnode_not_sorted hinv2.nodup
      · intro x
        simp only [List.mem_cons]
        constructor
        · rintro (rfl | hx)
          · exact Or.inl rfl
          · exact Or.inr ((hinv2.mem_sorted x).mp hx)
        · rintro (rfl | hx)
          · exact Or.inl rfl
          · exact Or.inr ((hinv2.mem_sorted x).mpr hx)
      · intro x hx
        rcases List.mem_cons.mp hx with rfl | hx
        · exact hle.tempLe x (List.mem_cons_self _ _)
        · exact hinv2.perm_temp x hx
      · exact hinv2.temp_nodes
      · refine topoP_cons g node d2.sorted hnode_not_sorted ?_ hinv2.topo
        intro v hv
        exact (hinv2.mem_sorted v).mpr (hsuccs v hv)

/-! ### Completeness: on an acyclic graph the DFS never reports an error -/

/-- Number of graph nodes not yet marked temporary — the DFS recursion
measure. -/
def remaining (g : Graph) (temp : List String) : Nat :=
  (g.nodes.filter (fun x => decide (x ∉ temp))).length

theorem length_filter_mono {α : Type} {p q : α → Bool}
    (h : ∀ x, q x = true → p x = true) (l : List α) :
    (l.filter q).length ≤ (l.filter p).length := by
  induction l with
  | nil => simp
  | cons a l ih =>
    rw [List.filter_cons, List.filter_cons]
    cases hq : q a with
    | true =>
      rw [h a hq]
      simpa using ih
    | false =>
      cases hp : p a <;> simp <;> omega

theorem remaining_mono (g : Graph) (t1 t2 : List String) (h : ∀ x ∈ t1, x ∈ t2) :
    remaining g t2 ≤ remaining g t1 := by
  refine length_filter_mono ?_ g.nodes
  intro x hx
  simp only [decide_eq_true_eq] at *
  intro hc
  exact hx (h x hc)

theorem remaining_nil (g : Graph) : remaining g [] = g.nodes.length := by
  unfold remaining
  rw [List.filter_length_eq_length.mpr]
  intro x _
  simp

theorem length_filter_notmem_lt {l t : List String} {n : String}
    (hn : n ∈ l) (hnt : n ∉ t) :
    (l.filter (fun x => decide (x ∉ n :: t))).length <
      (l.filter (fun x => decide (x ∉ t))).length := by
  induction l with
  | nil => cases hn
  | cons a l ih =>
    rw [List.filter_cons, List.filter_cons]
    by_cases ha : a = n
    · subst ha
      have h1 : (decide (a ∉ a :: t)) = false := by simp
      have h2 : (decide (a ∉ t)) = true := by simpa using hnt
      rw [h1, h2, if_neg Bool.false_ne_true, if_pos rfl]
      have hmono : (l.filter (fun x => decide (x ∉ a :: t))).length ≤
          (l.filter (fun x => decide (x ∉ t))).length := by
        refine length_filter_mono ?_ l
        intro x hx
        simp only [decide_eq_true_eq, List.mem_cons] at *
        tauto
      simp only [List.length_cons]
      omega
    · have hn' : n ∈ l := by
        rcases List.mem_cons.mp hn with h | h
        · exact absurd h.symm ha
        · exact h
      have heq : (decide (a ∉ n :: t)) = (decide (a ∉ t)) := by
        by_cases hat : a ∈ t
        · simp [hat]
        · simp [hat, ha]
      rw [heq]
      cases hd : (decide (a ∉ t)) with
      | false =>
        rw [if_neg Bool.false_ne_true, if_neg Bool.false_ne_true]
        exact ih hn'
      | true =>
        rw [if_pos rfl, if_pos rfl]
        simp only [List.length_cons]
        have := ih hn'
        omega

theorem remaining_lt (g : Graph) (temp : List String) (node : String)
    (hnode : node ∈ g.nodes) (htemp : node ∉ temp) :
    remaining g (node :: temp) < remaining g temp :=
  length_filter_notmem_lt hnode htemp

theorem recurse_complete (g : Graph)
    (hclosed : ∀ u v, v ∈ g.succs u → v ∈ g.nodes)
    (hacyc : g.Acyclic) :
    ∀ (fuel : Nat) (node : String) (d : DfsSort), node ∈ g.nodes →
      remaining g d.temp < fuel →
      (∀ x ∈ d.temp, x ∉ d.permanent → g.Reaches x node) →
      ∃ d', recurse g fuel node d = some d' := by
  intro fuel
  induction fuel with
  | zero => intro node d _ hrem _; omega
  | succ fuel ih =>
    intro node d hnode hrem hprog
    by_cases hperm : node ∈ d.permanent
    · exact ⟨d, by rw [recurse]; rw [if_pos hperm]⟩
    by_cases htemp : node ∈ d.temp
    · exact absurd (hprog node htemp hperm) (hacyc node)
    -- the inner neighbour loop
    have hlist : ∀ (ns : List String) (d1 : DfsSort), (∀ v ∈ ns, g.Edge node v) →
        remaining g d1.temp < fuel →
        (∀ x ∈ d1.temp, x ∉ d1.permanent → x = node ∨ g.Reaches x node) →
        ∃ d2, recurseList (fun n d' => recurse g fuel n d') ns d1 = some d2 := by
      intro ns
      induction ns with
      | nil => intro d1 _ _ _; exact ⟨d1, rfl⟩
      | cons v ns ihns =>
        intro d1 hedges hrem1 hprog1
        have hedge : g.Edge node v := hedges v (List.mem_cons_self _ _)
        have hv : v ∈ g.nodes := hclosed node v hedge
        obtain ⟨d2, hd2⟩ : ∃ d2, recurse g fuel v d1 = some d2 := by
          refine ih v d1 hv hrem1 ?_
          intro x hx hxp
          rcases hprog1 x hx hxp with rfl | hr
          · exact Relation.TransGen.single hedge
          · exact Relation.TransGen.tail hr hedge
        obtain ⟨hle, _⟩ := recurse_frame g fuel v d1 d2 hd2
        obtain ⟨d3, hd3⟩ : ∃ d3,
            recurseList (fun n d' => recurse g fuel n d') ns d2 = some d3 := by
          refine ihns d2 (fun x hx => hedges x (List.mem_cons_of_mem _ hx)) ?_ ?_
          · exact lt_of_le_of_lt (remaining_mono g d1.temp d2.temp hle.tempLe) hrem1
          · intro x hx hxp
            rcases hle.tempNew x hx with h | h
            · refine hprog1 x h ?_
              intro hc
              exact hxp (hle.permLe x hc)
            · exact absurd h hxp
        refine ⟨d3, ?_⟩
        rw [recurseList, hd2]
        exact hd3
    have hd1rem : remaining g (node :: d.temp) < fuel := by
      have h1 := remaining_lt g d.temp node hnode htemp
      omega
    obtain ⟨d2, hd2⟩ := hlist (g.succs node) { d with temp := node :: d.temp }
      (fun v hv => hv) hd1rem
      (by
        intro x hx hxp
        rcases List.mem_cons.mp hx with rfl | hx
        · exact Or.inl rfl
        · exact Or.inr (hprog x hx hxp))
    refine ⟨{ d2 with permanent := node :: d2.permanent, sorted := node :: d2.sorted }, ?_⟩
    rw [recurse, if_neg hperm, if_neg htemp, hd2]

/-! ### The outer `sort()` loop -/

/-- At the top of the `sort()` loop every in-progress node has been
completed. -/
def TsubP (d : DfsSort) : Prop := ∀ x ∈ d.temp, x ∈ d.permanent

theorem TsubP_of_le {d d' : DfsSort} (h : TsubP d) (hle : DfsLe d d') : TsubP d' := by
  intro x hx
  rcases hle.tempNew x hx with h' | h'
  · exact hle.permLe x (h x h')
  · exact h'

theorem dfsSortRun_sound (g : Graph) (fuel : Nat)
    (hclosed : ∀ u v, v ∈ g.succs u → v ∈ g.nodes) :
    ∀ (ns : List String) (d d' : DfsSort), (∀ n ∈ ns, n ∈ g.nodes) →
      DfsInv g d → TsubP d → dfsSortRun g fuel ns d = some d' →
      DfsInv g d' ∧ TsubP d' ∧ DfsLe d d' ∧ (∀ n ∈ ns, n ∈ d'.permanent) := by
  intro ns
  induction ns with
  | nil =>
    intro d d' _ hinv htp h
    rw [dfsSortRun] at h
    cases h
    exact ⟨hinv, htp, DfsLe.dfsle_refl d, by simp⟩
  | cons n ns ih =>
    intro d d' hns hinv htp h
    rw [dfsSortRun] at h
    by_cases hskip : n ∈ d.temp ∨ n ∈ d.permanent
    · rw [if_pos hskip] at h
      obtain ⟨hinv', htp', hle, hmem⟩ :=
        ih d d' (fun x hx => hns x (List.mem_cons_of_mem _ hx)) hinv htp h
      have hnperm : n ∈ d.permanent := by
        rcases hskip with h' | h'
        · exact htp n h'
        · exact h'
      refine ⟨hinv', htp', hle, ?_⟩
      intro x hx
      rcases List.mem_cons.mp hx with rfl | hx
      · exact hle.permLe x hnperm
      · exact hmem x hx
    · rw [if_neg hskip] at h
      cases hr : recurse g fuel n d with
      | none => rw [hr] at h; cases h
      | some d2 =>
        rw [hr] at h
        have hn : n ∈ g.nodes := hns n (List.mem_cons_self _ _)
        have hinv2 := recurse_inv g hclosed fuel n d d2 hn hinv hr
        obtain ⟨hle1, hperm1⟩ := recurse_frame g fuel n d d2 hr
        have htp2 : TsubP d2 := TsubP_of_le htp hle1
        obtain ⟨hinv', htp', hle2, hmem⟩ :=
          ih d2 d' (fun x hx => hns x (List.mem_cons_of_mem _ hx)) hinv2 htp2 h
        refine ⟨hinv', htp', hle1.dfsle_trans hle2, ?_⟩
        intro x hx
        rcases List.mem_cons.mp hx with rfl | hx
        · exact hle2.permLe x hperm1
        · exact hmem x hx

theorem dfsSortRun_complete (g : Graph) (fuel : Nat)
    (hclosed : ∀ u v, v ∈ g.succs u → v ∈ g.nodes) (hacyc : g.Acyclic) :
    ∀ (ns : List String) (d : DfsSort), (∀ n ∈ ns, n ∈ g.nodes) → TsubP d →
      remaining g d.temp < fuel →
      ∃ d', dfsSortRun g fuel ns d = some d' := by
  intro ns
  induction ns with
  | nil => intro d _ _ _; exact ⟨d, rfl⟩
  | cons n ns ih =>
    intro d hns htp hrem
    by_cases hskip : n ∈ d.temp ∨ n ∈ d.permanent
    · obtain ⟨d', hd'⟩ := ih d (fun x hx => hns x (List.mem_cons_of_mem _ hx)) htp hrem
      exact ⟨d', by rw [dfsSortRun, if_pos hskip]; exact hd'⟩
    · obtain ⟨d2, hd2⟩ : ∃ d2, recurse g fuel n d = some d2 := by
        refine recurse_complete g hclosed hacyc fuel n d (hns n (List.mem_cons_self _ _)) hrem ?_
        intro x hx hxp
        exact absurd (htp x hx) hxp
      obtain ⟨hle, _⟩ := recurse_frame g fuel n d d2 hd2
      obtain ⟨d', hd'⟩ : ∃ d', dfsSortRun g fuel ns d2 = some d' := by
        refine ih d2 (fun x hx => hns x (List.mem_cons_of_mem _ hx)) (TsubP_of_le htp hle) ?_
        exact lt_of_le_of_lt (remaining_mono g d.temp d2.temp hle.tempLe) hrem
      refine ⟨d', ?_⟩
      rw [dfsSortRun, if_neg hskip, hd2]
      exact hd'

/-! ### `sort()` as a whole -/

theorem sortWith_sound (g : Graph)
    (hclosed : ∀ u v, v ∈ g.succs u → v ∈ g.nodes)
    (order : List String) (l : List String)
    (h1 : ∀ n ∈ order, n ∈ g.nodes)
    (h2 : ∀ n ∈ g.nodes, n ∈ order)
    (hs : g.sortWith order = some l) :
    l.Nodup ∧ (∀ n, n ∈ l ↔ n ∈ g.nodes) ∧ topoP g l := by
  rw [Graph.sortWith] at hs
  cases hrun : dfsSortRun g (g.nodes.length + 1) order ⟨[], [], []⟩ with
  | none => rw [hrun] at hs; cases hs
  | some d =>
    rw [hrun] at hs
    cases hs
    have hinv0 : DfsInv g ⟨[], [], []⟩ := by
      refine ⟨List.nodup_nil, ?_, ?_, ?_, topoP_nil g⟩ <;> simp
    have htp0 : TsubP ⟨[], [], []⟩ := by intro x hx; cases hx
    obtain ⟨hinv, _, _, hmem⟩ := dfsSortRun_sound g _ hclosed order ⟨[], [], []⟩ d h1 hinv0 htp0 hrun
    refine ⟨hinv.nodup, ?_, hinv.topo⟩
    intro n
    constructor
    · intro hn
      exact hinv.temp_nodes n (hinv.perm_temp n ((hinv.mem_sorted n).mp hn))
    · intro hn
      exact (hinv.mem_sorted n).mpr (hmem n (h2 n hn))

theorem sortWith_complete (g : Graph)
    (hclosed : ∀ u v, v ∈ g.succs u → v ∈ g.nodes)
    (hacyc : g.Acyclic) (order : List String)
    (h1 : ∀ n ∈ order, n ∈ g.nodes) :
    ∃ l, g.sortWith order = some l := by
  have hrem : remaining g ([] : List String) < g.nodes.length + 1 := by
    rw [remaining_nil]
    omega
  obtain ⟨d, hd⟩ := dfsSortRun_complete g (g.nodes.length + 1) hclosed hacyc order
    ⟨[], [], []⟩ h1 (by intro x hx; cases hx) hrem
  refine ⟨d.sorted, ?_⟩
  rw [Graph.sortWith, hd]

/-! ### From a topological list to index ordering -/

theorem indexOf_append_cons_lt {l1 l2 : List String} {u v : String}
    (hnd : (l1 ++ u :: l2).Nodup) (hv : v ∈ l2) :
    (l1 ++ u :: l2).indexOf u < (l1 ++ u :: l2).indexOf v := by
  induction l1 with
  | nil =>
    simp only [List.nil_append]
    have hvu : v ≠ u := by
      intro he
      subst he
      exact (List.nodup_cons.mp hnd).1 hv
    rw [List.indexOf_cons_self, List.indexOf_cons_ne _ (fun he => hvu he.symm)]
    omega
  | cons a l1 ih =>
    simp only [List.cons_append] at hnd ⊢
    have hna := (List.nodup_cons.mp hnd).1
    have hnd' := (List.nodup_cons.mp hnd).2
    have hau : a ≠ u := by
      intro he
      subst he
      exact hna (by simp)
    have hav : a ≠ v := by
      intro he
      subst he
      exact hna (by simp [hv])
    rw [List.indexOf_cons_ne _ hau, List.indexOf_cons_ne _ hav]
    have := ih hnd'
    omega

theorem topoP_indexOf_lt (g : Graph) (l : List String)
    (hnd : l.Nodup) (ht : topoP g l) (u v : String)
    (he : g.Edge u v) (hu : u ∈ l) :
    l.indexOf u < l.indexOf v := by
  obtain ⟨l1, l2, rfl⟩ := List.append_of_mem hu
  exact indexOf_append_cons_lt hnd (ht u l1 l2 rfl v he)

theorem reaches_indexOf_lt (g : Graph) (l : List String)
    (hnd : l.Nodup) (ht : topoP g l)
    (hmem : ∀ x ∈ g.nodes, x ∈ l)
    (hsrc : ∀ u v, g.Edge u v → u ∈ g.nodes)
    (u v : String) (hr : g.Reaches u v) :
    l.indexOf u < l.indexOf v := by
  induction hr with
  | single he => exact topoP_indexOf_lt g l hnd ht _ _ he (hmem _ (hsrc _ _ he))
  | tail _ he ih =>
    exact lt_trans ih (topoP_indexOf_lt g l hnd ht _ _ he (hmem _ (hsrc _ _ he)))

theorem acyclic_of_sortWith_ofEdges_some (es : List (String × String))
    (order : List String) (l : List String)
    (h1 : ∀ n ∈ order, n ∈ (Graph.ofEdges es).nodes)
    (h2 : ∀ n ∈ (Graph.ofEdges es).nodes, n ∈ order)
    (hs : (Graph.ofEdges es).sortWith order = some l) :
    (Graph.ofEdges es).Acyclic := by
  obtain ⟨hnd, hmem, ht⟩ :=
    sortWith_sound (Graph.ofEdges es) (Graph.closed_ofEdges es) order l h1 h2 hs
  intro n hr
  have := reaches_indexOf_lt (Graph.ofEdges es) l hnd ht
    (fun x hx => (hmem x).mpr hx) (Graph.src_mem_ofEdges es) n n hr
  omega

/-- **C1.** For every edge set built by `addEdge` calls (and any iteration
order of the node set): if the edge set is acyclic, `sort()` returns a
sequence containing every node name exactly once (`Nodup` plus the
membership equivalence) in which, for every edge `(owner, dependent)`, the
owner's index precedes the dependent's index; if the edge set contains a
cycle, `sort()` fails with the cycle error and returns no partial sequence
(`none` carries no list at all). -/
theorem graph_sort_correct (es : List (String × String)) (order : List String)
    (horder : order.Perm (Graph.ofEdges es).nodes) :
    ((Graph.ofEdges es).Acyclic →
      ∃ l, (Graph.ofEdges es).sortWith order = some l ∧ l.Nodup ∧
        (∀ n, n ∈ l ↔ n ∈ (Graph.ofEdges es).nodes) ∧
        (∀ u v, (u, v) ∈ es → l.indexOf u < l.indexOf v)) ∧
    (¬ (Graph.ofEdges es).Acyclic → (Graph.ofEdges es).sortWith order = none) := by
  have h1 : ∀ n ∈ order, n ∈ (Graph.ofEdges es).nodes := fun n hn => horder.mem_iff.mp hn
  have h2 : ∀ n ∈ (Graph.ofEdges es).nodes, n ∈ order := fun n hn => horder.mem_iff.mpr hn
  constructor
  · intro hacyc
    obtain ⟨l, hl⟩ := sortWith_complete _ (Graph.closed_ofEdges es) hacyc order h1
    obtain ⟨hnd, hmem, ht⟩ := sortWith_sound _ (Graph.closed_ofEdges es) order l h1 h2 hl
    refine ⟨l, hl, hnd, hmem, ?_⟩
    intro u v huv
    have he : (Graph.ofEdges es).Edge u v := (Graph.succs_ofEdges es u v).mpr huv
    refine topoP_indexOf_lt _ l hnd ht u v he ?_
    exact (hmem u).mpr (Graph.src_mem_ofEdges es u v he)
  · intro hcyc
    cases hs : (Graph.ofEdges es).sortWith order with
    | none => rfl
    | some l => exact absurd (acyclic_of_sortWith_ofEdges_some es order l h1 h2 hs) hcyc

/-- Witness for `graph_sort_correct` at the one-edge graph `a → b`. -/
theorem graph_sort_correct_witness :
    (["a", "b"] : List String).Perm (Graph.ofEdges [("a", "b")]).nodes ∧
    (((Graph.ofEdges [("a", "b")]).Acyclic →
      ∃ l, (Graph.ofEdges [("a", "b")]).sortWith ["a", "b"] = some l ∧ l.Nodup ∧
        (∀ n, n ∈ l ↔ n ∈ (Graph.ofEdges [("a", "b")]).nodes) ∧
        (∀ u v, (u, v) ∈ [("a", "b")] → l.indexOf u < l.indexOf v)) ∧
    (¬ (Graph.ofEdges [("a", "b")]).Acyclic →
      (Graph.ofEdges [("a", "b")]).sortWith ["a", "b"] = none)) :=
  ⟨by decide, graph_sort_correct [("a", "b")] ["a", "b"] (by decide)⟩

/-! ## Items and owner references

An `unstructured.Unstructured` item is modelled by its metadata fields as
used by the tool, plus an opaque `payload` standing for every other field
(spec/status/...), cf. spec section 3.  `metadata.namespace` is called `ns`
because `namespace` is a Lean keyword. -/

structure OwnerReference where
  apiVersion : String
  kind : String
  name : String
  uid : String
deriving DecidableEq, Repr

structure Item where
  apiVersion : String
  kind : String
  name : String
  ns : String
  resourceVersion : String
  uid : String
  labels : SMap String
  annotations : SMap String
  ownerReferences : List OwnerReference
  payload : String
deriving DecidableEq, Repr

/-- The fields of `metav1.APIResource` that the tool reads. -/
structure APIResource where
  Name : String
  Kind : String
  Namespaced : Bool
deriving DecidableEq, Repr

/-! ## The created-items tracker (`created_items_tracker.go`) -/

structure ItemInfo where
  name : String
  uid : String
deriving DecidableEq, Repr

/-- `newItemInfo`. -/
def newItemInfo (item : Item) : ItemInfo := ⟨item.name, item.uid⟩

/-- The `createdItems` struct: item name → identity record. -/
structure CreatedItems where
  items : SMap ItemInfo
deriving DecidableEq, Repr

def newCreatedItems : CreatedItems := ⟨[]⟩

/-- `createdItems.registerCreatedItem`: keyed by `item.GetName()` only. -/
def CreatedItems.registerCreatedItem (c : CreatedItems) (item : Item) : CreatedItems :=
  ⟨c.items.insert item.name (newItemInfo item)⟩

/-- `createdItems.getByName`. -/
def CreatedItems.getByName (c : CreatedItems) (name : String) : Option ItemInfo :=
  c.items.lookup name

structure CreatedItemsTracker where
  oldGroupVersion : String
  newGroupVersion : String
  resourcesByKind : SMap APIResource
  createdItemsByKind : SMap CreatedItems
deriving DecidableEq, Repr

/-- `newCreatedItemsTracker`. -/
def newCreatedItemsTracker (oldGV newGV : String) : CreatedItemsTracker :=
  ⟨oldGV, newGV, [], []⟩

/-- `createdItemsTracker.registerResource`. -/
def CreatedItemsTracker.registerResource (c : CreatedItemsTracker)
    (resource : APIResource) : CreatedItemsTracker :=
  { c with
    resourcesByKind := c.resourcesByKind.insert resource.Kind resource,
    createdItemsByKind := c.createdItemsByKind.insert resource.Kind newCreatedItems }

/-- `createdItemsTracker.registerCreatedItem`: a no-op for untracked kinds. -/
def CreatedItemsTracker.registerCreatedItem (c : CreatedItemsTracker)
    (item : Item) : CreatedItemsTracker :=
  match c.createdItemsByKind.lookup item.kind with
  | none => c
  | some byKind =>
    { c with
      createdItemsByKind :=
        c.createdItemsByKind.insert item.kind (byKind.registerCreatedItem item) }

/-- The body of the `for _, ownerRef := range item.GetOwnerReferences()`
loop of `updateOwnerRefs`.  The boolean records whether the
`log.Warn("Unable to update ownerRef ...")` branch was taken. -/
def CreatedItemsTracker.updateOwnerRef (c : CreatedItemsTracker)
    (ownerRef : OwnerReference) : OwnerReference × Bool :=
  if ownerRef.apiVersion ≠ c.oldGroupVersion then (ownerRef, false)
  else
    match c.createdItemsByKind.lookup ownerRef.kind with
    | none => (ownerRef, false)
    | some byKind =>
      match byKind.getByName ownerRef.name with
      | none => (ownerRef, true)
      | some createdItem =>
        ({ ownerRef with apiVersion := c.newGroupVersion, uid := createdItem.uid }, false)

/-- `createdItemsTracker.updateOwnerRefs`: rebuild the owner-reference list
in order and store it back on the item. -/
def CreatedItemsTracker.updateOwnerRefs (c : CreatedItemsTracker) (item : Item) : Item :=
  { item with ownerReferences := item.ownerReferences.map (fun r => (c.updateOwnerRef r).1) }

theorem updateOwnerRef_not_migrated (c : CreatedItemsTracker) (r : OwnerReference)
    (h : r.apiVersion ≠ c.oldGroupVersion) : c.updateOwnerRef r = (r, false) := by
  unfold CreatedItemsTracker.updateOwnerRef
  rw [if_pos h]

theorem updateOwnerRef_untracked (c : CreatedItemsTracker) (r : OwnerReference)
    (h1 : r.apiVersion = c.oldGroupVersion)
    (h2 : c.createdItemsByKind.lookup r.kind = none) : c.updateOwnerRef r = (r, false) := by
  unfold CreatedItemsTracker.updateOwnerRef
  rw [if_neg (fun hc => hc h1), h2]

theorem updateOwnerRef_unknown_name (c : CreatedItemsTracker) (r : OwnerReference)
    (byKind : CreatedItems)
    (h1 : r.apiVersion = c.oldGroupVersion)
    (h2 : c.createdItemsByKind.lookup r.kind = some byKind)
    (h3 : byKind.getByName r.name = none) : c.updateOwnerRef r = (r, true) := by
  unfold CreatedItemsTracker.updateOwnerRef
  rw [if_neg (fun hc => hc h1)]
  simp [h2, h3]

theorem updateOwnerRef_found (c : CreatedItemsTracker) (r : OwnerReference)
    (byKind : CreatedItems) (info : ItemInfo)
    (h1 : r.apiVersion = c.oldGroupVersion)
    (h2 : c.createdItemsByKind.lookup r.kind = some byKind)
    (h3 : byKind.getByName r.name = some info) :
    c.updateOwnerRef r = ({ r with apiVersion := c.newGroupVersion, uid := info.uid }, false) := by
  unfold CreatedItemsTracker.updateOwnerRef
  rw [if_neg (fun hc => hc h1)]
  simp [h2, h3]

/-- **C2.** `updateOwnerRefs` replaces the owner-reference sequence of an
item by one of equal length, in which the reference at each position `i` is:
unchanged and without warning when its apiVersion differs from the source
group or its kind is untracked; unchanged but with a warning when the kind
is tracked and the name is missing from that kind's registry; and rewritten
to the target group and the registered record's UID when the name is found. -/
theorem update_owner_refs_cases (c : CreatedItemsTracker) (item : Item)
    (i : Nat) (r : OwnerReference) (hr : item.ownerReferences[i]? = some r) :
    ((c.updateOwnerRefs item).ownerReferences.length = item.ownerReferences.length) ∧
    (r.apiVersion ≠ c.oldGroupVersion →
      (c.updateOwnerRefs item).ownerReferences[i]? = some r ∧
      (c.updateOwnerRef r).2 = false) ∧
    (r.apiVersion = c.oldGroupVersion → c.createdItemsByKind.lookup r.kind = none →
      (c.updateOwnerRefs item).ownerReferences[i]? = some r ∧
      (c.updateOwnerRef r).2 = false) ∧
    (∀ byKind, r.apiVersion = c.oldGroupVersion →
      c.createdItemsByKind.lookup r.kind = some byKind →
      byKind.getByName r.name = none →
      (c.updateOwnerRefs item).ownerReferences[i]? = some r ∧
      (c.updateOwnerRef r).2 = true) ∧
    (∀ byKind info, r.apiVersion = c.oldGroupVersion →
      c.createdItemsByKind.lookup r.kind = some byKind →
      byKind.getByName r.name = some info →
      (c.updateOwnerRefs item).ownerReferences[i]? =
        some { r with apiVersion := c.newGroupVersion, uid := info.uid } ∧
      (c.updateOwnerRef r).2 = false) := by
  have hmap : (c.updateOwnerRefs item).ownerReferences[i]? =
      some (c.updateOwnerRef r).1 := by
    show (item.ownerReferences.map (fun r => (c.updateOwnerRef r).1))[i]? = _
    rw [List.getElem?_map, hr]
    rfl
  refine ⟨?_, ?_, ?_, ?_, ?_⟩
  · show (item.ownerReferences.map (fun r => (c.updateOwnerRef r).1)).length = _
    exact List.length_map _ _
  · intro h
    rw [hmap, updateOwnerRef_not_migrated c r h]
    exact ⟨rfl, rfl⟩
  · intro h1 h2
    rw [hmap, updateOwnerRef_untracked c r h1 h2]
    exact ⟨rfl, rfl⟩
  · intro byKind h1 h2 h3
    rw [hmap, updateOwnerRef_unknown_name c r byKind h1 h2 h3]
    exact ⟨rfl, rfl⟩
  · intro byKind info h1 h2 h3
    rw [hmap, updateOwnerRef_found c r byKind info h1 h2 h3]
    exact ⟨rfl, rfl⟩

/-- A tracker as it looks after `registerResource` for kind `Bar` and one
`registerCreatedItem` of a `Bar` named `owner-1` with UID `uid-42`. -/
def exTracker : CreatedItemsTracker :=
  ⟨"old/v1", "new/v1", [("Bar", ⟨"bars", "Bar", true⟩)],
   [("Bar", ⟨[("owner-1", ⟨"owner-1", "uid-42"⟩)]⟩)]⟩

def exOwnerRef : OwnerReference := ⟨"old/v1", "Bar", "owner-1", "legacy-uid"⟩

def exItem : Item :=
  ⟨"old/v1", "Foo", "child-1", "ns-1", "17", "uid-7", [("k", "v")], [],
   [exOwnerRef], "spec-payload"⟩

/-- Witness for `update_owner_refs_cases`: the found case rewrites the
reference to the new group and the registered UID. -/
theorem update_owner_refs_cases_witness :
    exItem.ownerReferences[0]? = some exOwnerRef ∧
    ((exTracker.updateOwnerRefs exItem).ownerReferences[0]? =
        some ⟨"new/v1", "Bar", "owner-1", "uid-42"⟩ ∧
      (exTracker.updateOwnerRef exOwnerRef).2 = false) := by
  refine ⟨rfl, ?_⟩
  have h := (update_owner_refs_cases exTracker exItem 0 exOwnerRef rfl).2.2.2.2
    ⟨[("owner-1", ⟨"owner-1", "uid-42"⟩)]⟩ ⟨"owner-1", "uid-42"⟩ rfl (by decide) (by decide)
  exact ⟨by rw [h.1]; rfl, h.2⟩

/-- **C8.** `registerResource(kind)` leaves the kind tracked with an empty
registry regardless of previously registered items: it is idempotent, and
calling it after a `registerCreatedItem` call for that kind discards the
registration. -/
theorem register_resource_resets (c : CreatedItemsTracker) (resource : APIResource)
    (item : Item) (hkind : item.kind = resource.Kind) :
    ((c.registerResource resource).createdItemsByKind.lookup resource.Kind
        = some newCreatedItems) ∧
    ((c.registerResource resource).registerResource resource
        = c.registerResource resource) ∧
    ((c.registerCreatedItem item).registerResource resource
        = c.registerResource resource) := by
  refine ⟨SMap.lookup_insert_self _ _ _, ?_, ?_⟩
  · unfold CreatedItemsTracker.registerResource
    simp [SMap.insert_insert_self]
  · unfold CreatedItemsTracker.registerCreatedItem
    cases hl : c.createdItemsByKind.lookup item.kind with
    | none => rfl
    | some byKind =>
      have hins : ((c.createdItemsByKind.insert item.kind
            (byKind.registerCreatedItem item)).insert resource.Kind newCreatedItems)
          = c.createdItemsByKind.insert resource.Kind newCreatedItems := by
        rw [hkind]
        exact SMap.insert_insert_self _ _ _ _
      simp [CreatedItemsTracker.registerResource, hins]

def exBarItem : Item :=
  ⟨"old/v1", "Bar", "owner-2", "ns-1", "", "uid-43", [], [], [], ""⟩

/-- Witness for `register_resource_resets` on a concrete tracker. -/
theorem register_resource_resets_witness :
    exBarItem.kind = (⟨"bars", "Bar", true⟩ : APIResource).Kind ∧
    (((exTracker.registerResource ⟨"bars", "Bar", true⟩).createdItemsByKind.lookup "Bar"
        = some newCreatedItems) ∧
    ((exTracker.registerResource ⟨"bars", "Bar", true⟩).registerResource ⟨"bars", "Bar", true⟩
        = exTracker.registerResource ⟨"bars", "Bar", true⟩) ∧
    ((exTracker.registerCreatedItem exBarItem).registerResource ⟨"bars", "Bar", true⟩
        = exTracker.registerResource ⟨"bars", "Bar", true⟩)) :=
  ⟨rfl, register_resource_resets exTracker ⟨"bars", "Bar", true⟩ exBarItem rfl⟩

theorem SMap.filter_erase_key {V : Type} (m : SMap V) (k : String) :
    (m.erase k).filter (fun e => e.1 == k) = [] := by
  induction m with
  | nil => rfl
  | cons p t ih =>
    rw [SMap.erase_cons]
    by_cases h : p.1 = k
    · rw [if_pos h]
      exact ih
    · rw [if_neg h, List.filter_cons, if_neg (by simpa using h)]
      exact ih

theorem SMap.count_insert_key {V : Type} (m : SMap V) (k : String) (v : V) :
    ((m.insert k v).filter (fun e => e.1 == k)).length = 1 := by
  show (((k, v) :: m.erase k).filter (fun e => e.1 == k)).length = 1
  rw [List.filter_cons, if_pos (by simp), SMap.filter_erase_key]
  rfl

/-- **C10.** The identity registry keys records by item name alone:
registering two same-named items of a tracked kind (their namespaces are
unconstrained) leaves exactly one record for that name, holding the UID of
the item registered last, and every owner-reference lookup for that name
afterwards yields that UID. -/
theorem registry_keyed_by_name (c : CreatedItemsTracker) (i1 i2 : Item)
    (reg : CreatedItems)
    (hk : i2.kind = i1.kind) (hn : i2.name = i1.name)
    (htracked : c.createdItemsByKind.lookup i1.kind = some reg) :
    ∃ reg2,
      (((c.registerCreatedItem i1).registerCreatedItem i2).createdItemsByKind.lookup i1.kind
          = some reg2) ∧
      (reg2.items.filter (fun e => e.1 == i1.name)).length = 1 ∧
      reg2.getByName i1.name = some ⟨i2.name, i2.uid⟩ ∧
      (∀ r : OwnerReference, r.apiVersion = c.oldGroupVersion → r.kind = i1.kind →
        r.name = i1.name →
        ((c.registerCreatedItem i1).registerCreatedItem i2).updateOwnerRef r
          = ({ r with apiVersion := c.newGroupVersion, uid := i2.uid }, false)) := by
  have hstep : ∀ (c' : CreatedItemsTracker) (i : Item) (reg' : CreatedItems),
      c'.createdItemsByKind.lookup i.kind = some reg' →
      c'.registerCreatedItem i =
        { c' with createdItemsByKind :=
            c'.createdItemsByKind.insert i.kind (reg'.registerCreatedItem i) } := by
    intro c' i reg' h
    unfold CreatedItemsTracker.registerCreatedItem
    rw [h]
  have h1 := hstep c i1 reg htracked
  have hlook1 : (c.registerCreatedItem i1).createdItemsByKind.lookup i2.kind
      = some (reg.registerCreatedItem i1) := by
    rw [h1, hk]
    exact SMap.lookup_insert_self _ _ _
  have h2 := hstep (c.registerCreatedItem i1) i2 (reg.registerCreatedItem i1) hlook1
  have hitems : ((reg.registerCreatedItem i1).registerCreatedItem i2).items
      = reg.items.insert i1.name (newItemInfo i2) := by
    show ((reg.items.insert i1.name (newItemInfo i1)).insert i2.name (newItemInfo i2))
        = reg.items.insert i1.name (newItemInfo i2)
    rw [hn]
    exact SMap.insert_insert_self _ _ _ _
  have hlookfin : ((c.registerCreatedItem i1).registerCreatedItem i2).createdItemsByKind.lookup i1.kind
      = some ((reg.registerCreatedItem i1).registerCreatedItem i2) := by
    rw [h2]
    show ((c.registerCreatedItem i1).createdItemsByKind.insert i2.kind
        ((reg.registerCreatedItem i1).registerCreatedItem i2)).lookup i1.kind = _
    rw [← hk]
    exact SMap.lookup_insert_self _ _ _
  refine ⟨(reg.registerCreatedItem i1).registerCreatedItem i2, hlookfin, ?_, ?_, ?_⟩
  · rw [hitems]
    exact SMap.count_insert_key _ _ _
  · show ((reg.registerCreatedItem i1).registerCreatedItem i2).items.lookup i1.name = _
    rw [hitems, SMap.lookup_insert_self]
    rfl
  · intro r hra hrk hrn
    have hlookr : ((c.registerCreatedItem i1).registerCreatedItem i2).createdItemsByKind.lookup r.kind
        = some ((reg.registerCreatedItem i1).registerCreatedItem i2) := by
      rw [hrk]
      exact hlookfin
    have hname : ((reg.registerCreatedItem i1).registerCreatedItem i2).getByName r.name
        = some (newItemInfo i2) := by
      rw [hrn]
      show ((reg.registerCreatedItem i1).registerCreatedItem i2).items.lookup i1.name = _
      rw [hitems, SMap.lookup_insert_self]
    have hgv : ((c.registerCreatedItem i1).registerCreatedItem i2).oldGroupVersion
        = c.oldGroupVersion := by rw [h2, h1]
    have hgv2 : ((c.registerCreatedItem i1).registerCreatedItem i2).newGroupVersion
        = c.newGroupVersion := by rw [h2, h1]
    have hfound := updateOwnerRef_found ((c.registerCreatedItem i1).registerCreatedItem i2) r
      ((reg.registerCreatedItem i1).registerCreatedItem i2) (newItemInfo i2)
      (by rw [hgv]; exact hra) hlookr hname
    rw [hfound, hgv2]
    rfl

/-- Witness for `registry_keyed_by_name`: two same-named `Bar`s in different
namespaces; the second registration wins. -/
theorem registry_keyed_by_name_witness :
    ((⟨"old/v1", "Bar", "owner-1", "ns-b", "", "uid-77", [], [], [], ""⟩ : Item).kind
        = (⟨"old/v1", "Bar", "owner-1", "ns-a", "", "uid-42", [], [], [], ""⟩ : Item).kind ∧
      (⟨"old/v1", "Bar", "owner-1", "ns-b", "", "uid-77", [], [], [], ""⟩ : Item).name
        = (⟨"old/v1", "Bar", "owner-1", "ns-a", "", "uid-42", [], [], [], ""⟩ : Item).name ∧
      exTracker.createdItemsByKind.lookup "Bar"
        = some ⟨[("owner-1", ⟨"owner-1", "uid-42"⟩)]⟩) ∧
    (∃ reg2,
      (((exTracker.registerCreatedItem
            ⟨"old/v1", "Bar", "owner-1", "ns-a", "", "uid-42", [], [], [], ""⟩).registerCreatedItem
            ⟨"old/v1", "Bar", "owner-1", "ns-b", "", "uid-77", [], [], [], ""⟩).createdItemsByKind.lookup "Bar"
          = some reg2) ∧
      (reg2.items.filter (fun e => e.1 == "owner-1")).length = 1 ∧
      reg2.getByName "owner-1" = some ⟨"owner-1", "uid-77"⟩ ∧
      (∀ r : OwnerReference, r.apiVersion = exTracker.oldGroupVersion → r.kind = "Bar" →
        r.name = "owner-1" →
        ((exTracker.registerCreatedItem
            ⟨"old/v1", "Bar", "owner-1", "ns-a", "", "uid-42", [], [], [], ""⟩).registerCreatedItem
            ⟨"old/v1", "Bar", "owner-1", "ns-b", "", "uid-77", [], [], [], ""⟩).updateOwnerRef r
          = ({ r with apiVersion := exTracker.newGroupVersion, uid := "uid-77" }, false))) :=
  ⟨⟨rfl, rfl, by decide⟩,
    registry_keyed_by_name exTracker
      ⟨"old/v1", "Bar", "owner-1", "ns-a", "", "uid-42", [], [], [], ""⟩
      ⟨"old/v1", "Bar", "owner-1", "ns-b", "", "uid-77", [], [], [], ""⟩
      ⟨[("owner-1", ⟨"owner-1", "uid-42"⟩)]⟩ rfl rfl (by decide)⟩

/-! ## `updateMapKeys` (graph.go, label/annotation key rewriting) -/

/-- `strings.Replace(s, pat, rep, -1)` on character lists: replace the
non-overlapping occurrences of `pat` left to right.  The fuel (always
called with the string length) keeps the recursion structural; one
character is consumed per step, so `s.length` fuel always suffices for the
nonempty patterns that `parseMappings` admits. -/
def replaceLoop (pat rep : List Char) : Nat → List Char → List Char
  | 0, s => s
  | fuel + 1, s =>
    match s with
    | [] => []
    | c :: rest =>
      if pat.isPrefixOf s then rep ++ replaceLoop pat rep fuel (s.drop pat.length)
      else c :: replaceLoop pat rep fuel rest

/-- `strings.Replace(s, pat, rep, -1)`. -/
def replaceAll (s pat rep : String) : String :=
  ⟨replaceLoop pat.data rep.data s.data.length s.data⟩

/-- The body of the inner `for find, replace := range mappings` loop of
`updateMapKeys`: `key` and `value` stay fixed at the values of the outer
loop variable — a renamed key is *not* substituted into later iterations. -/
def updateMapKeysStep (key value : String) (m : SMap String)
    (fr : String × String) : SMap String :=
  let updatedKey := replaceAll key fr.1 fr.2
  if updatedKey ≠ key then (m.insert updatedKey value).erase key else m

/-- All `mappings` applied while visiting one `key, value` pair of `data`. -/
def updateMapKeysVisit (m : SMap String) (key value : String)
    (mappings : List (String × String)) : SMap String :=
  mappings.foldl (updateMapKeysStep key value) m

/-- `updateMapKeys(data, mappings)`.  The outer `for key, value := range
data` iterates over the map while it is being mutated; Go guarantees that
entries present at the start and not deleted are visited (with their
current value), while entries created during the iteration may be skipped.
This models the run in which exactly the original entries are visited, in
the list order of `data`, reading the value current at visit time. -/
def updateMapKeys (data : SMap String) (mappings : List (String × String)) : SMap String :=
  data.foldl
    (fun m kv =>
      match m.lookup kv.1 with
      | none => m
      | some value => updateMapKeysVisit m kv.1 value mappings) data

theorem updateMapKeysStep_preserves (key value k' : String) (m : SMap String)
    (fr : String × String) (hne : k' ≠ key) (h : m.lookup k' = some value) :
    (updateMapKeysStep key value m fr).lookup k' = some value := by
  unfold updateMapKeysStep
  by_cases hch : replaceAll key fr.1 fr.2 ≠ key
  · rw [if_pos hch]
    rw [SMap.lookup_erase_of_ne _ _ _ hne]
    by_cases hk : k' = replaceAll key fr.1 fr.2
    · rw [hk, SMap.lookup_insert_self]
    · rw [SMap.lookup_insert_of_ne _ _ _ _ hk, h]
  · rw [if_neg hch]
    exact h

theorem updateMapKeysStep_key_none (key value : String) (m : SMap String)
    (fr : String × String) (h : m.lookup key = none) :
    (updateMapKeysStep key value m fr).lookup key = none := by
  unfold updateMapKeysStep
  by_cases hch : replaceAll key fr.1 fr.2 ≠ key
  · rw [if_pos hch]
    exact SMap.lookup_erase_self _ _
  · rw [if_neg hch]
    exact h

theorem updateMapKeysVisit_preserves (key value k' : String)
    (mappings : List (String × String)) :
    ∀ (m : SMap String), k' ≠ key → m.lookup k' = some value →
      (updateMapKeysVisit m key value mappings).lookup k' = some value := by
  induction mappings with
  | nil => intro m _ h; exact h
  | cons q rest ih =>
    intro m hne h
    show (updateMapKeysVisit (updateMapKeysStep key value m q) key value rest).lookup k'
        = some value
    exact ih _ hne (updateMapKeysStep_preserves key value k' m q hne h)

theorem updateMapKeysVisit_key_none (key value : String)
    (mappings : List (String × String)) :
    ∀ (m : SMap String), m.lookup key = none →
      (updateMapKeysVisit m key value mappings).lookup key = none := by
  induction mappings with
  | nil => intro m h; exact h
  | cons q rest ih =>
    intro m h
    show (updateMapKeysVisit (updateMapKeysStep key value m q) key value rest).lookup key = none
    exact ih _ (updateMapKeysStep_key_none key value m q h)

/-- **C3, counterexample.**  With original key `ab`, value `v` and pairs
`a → x`, `b → y`, the claim predicts that rewriting continues from the
renamed key, leaving the single key `xy`.  The code applies every pair to
the *original* key: the map ends with the two keys `xb` and `ay` (one per
matching pair) and no key `xy`. -/
theorem update_map_keys_counterexample :
    (updateMapKeys [("ab", "v")] [("a", "x"), ("b", "y")]).lookup "xy" = none ∧
    (updateMapKeys [("ab", "v")] [("a", "x"), ("b", "y")]).lookup "xb" = some "v" ∧
    (updateMapKeys [("ab", "v")] [("a", "x"), ("b", "y")]).lookup "ay" = some "v" ∧
    (updateMapKeys [("ab", "v")] [("a", "x"), ("b", "y")]).lookup "ab" = none ∧
    updateMapKeys [("ab", "v")] [("a", "x"), ("b", "y")] ≠ [("xy", "v")] := by
  decide

/-- **C3 (amended).**  While visiting one original key, every find/replace
pair is applied to that *original* key (never to a renamed key): if no pair
changes the key the map is left untouched, and every pair that changes it
installs the rewritten original key with the visited value and removes the
original key — so a key matched by several pairs ends as several keys, one
per matching pair, not as a single key carrying all replacements. -/
theorem updateMapKeysVisit_cons (m : SMap String) (key value : String)
    (q : String × String) (rest : List (String × String)) :
    updateMapKeysVisit m key value (q :: rest)
      = updateMapKeysVisit (updateMapKeysStep key value m q) key value rest := rfl

theorem update_map_keys_per_pair (m : SMap String) (key value : String)
    (mappings : List (String × String)) :
    ((∀ p ∈ mappings, replaceAll key p.1 p.2 = key) →
      updateMapKeysVisit m key value mappings = m) ∧
    (∀ p ∈ mappings, replaceAll key p.1 p.2 ≠ key →
      (updateMapKeysVisit m key value mappings).lookup (replaceAll key p.1 p.2) = some value ∧
      (updateMapKeysVisit m key value mappings).lookup key = none) := by
  constructor
  · intro hstable
    induction mappings generalizing m with
    | nil => rfl
    | cons q rest ih =>
      rw [updateMapKeysVisit_cons]
      have hq : updateMapKeysStep key value m q = m := by
        unfold updateMapKeysStep
        rw [if_neg (fun hc => hc (hstable q (List.mem_cons_self _ _)))]
      rw [hq]
      exact ih m (fun p hp => hstable p (List.mem_cons_of_mem _ hp))
  · intro p hp hchange
    induction mappings generalizing m with
    | nil => cases hp
    | cons q rest ih =>
      rw [updateMapKeysVisit_cons]
      rcases List.mem_cons.mp hp with rfl | hp'
      · have hq : updateMapKeysStep key value m p =
            (m.insert (replaceAll key p.1 p.2) value).erase key := by
          unfold updateMapKeysStep
          rw [if_pos hchange]
        rw [hq]
        constructor
        · refine updateMapKeysVisit_preserves key value _ rest _ hchange ?_
          rw [SMap.lookup_erase_of_ne _ _ _ hchange, SMap.lookup_insert_self]
        · exact updateMapKeysVisit_key_none key value rest _ (SMap.lookup_erase_self _ _)
      · exact ih _ hp'

/-- Witness for `update_map_keys_per_pair` at the counterexample input. -/
theorem update_map_keys_per_pair_witness :
    (("a", "x") ∈ [("a", "x"), ("b", "y")] ∧ replaceAll "ab" "a" "x" ≠ "ab") ∧
    ((updateMapKeysVisit [("ab", "v")] "ab" "v" [("a", "x"), ("b", "y")]).lookup
        (replaceAll "ab" "a" "x") = some "v" ∧
      (updateMapKeysVisit [("ab", "v")] "ab" "v" [("a", "x"), ("b", "y")]).lookup "ab" = none) :=
  ⟨⟨by decide, by decide⟩,
    (update_map_keys_per_pair [("ab", "v")] "ab" "v" [("a", "x"), ("b", "y")]).2
      ("a", "x") (by decide) (by decide)⟩

/-! ## The Migrator configuration (`graph.go`) -/

/-- The mapping configuration of a `Migrator`.  The clients, logger and
discovery interface are the external collaborators of spec section 6; each
`SMap` carries the (unspecified) iteration order of the corresponding Go
map. -/
structure MigratorCfg where
  oldGroupVersion : String
  newGroupVersion : String
  namespaceMappings : SMap String
  labelMappings : SMap String
  annotationMappings : SMap String
  updateOwnerRefMappings : SMap String
deriving DecidableEq, Repr

/-- `Migrator.getTargetNamespace`. -/
def MigratorCfg.getTargetNamespace (m : MigratorCfg) (original : String) : String :=
  match m.namespaceMappings.lookup original with
  | some target => target
  | none => original

/-- `Migrator.prepareForCreate`: apiVersion → new group/version,
resourceVersion cleared, namespace mapped, annotation and label keys
rewritten when mappings are configured, owner references updated. -/
def prepareForCreate (m : MigratorCfg) (tracker : CreatedItemsTracker) (item : Item) : Item :=
  let item1 := { item with apiVersion := m.newGroupVersion }
  let item2 := { item1 with resourceVersion := "" }
  let item3 := { item2 with ns := m.getTargetNamespace item2.ns }
  let item4 :=
    if 0 < m.annotationMappings.length then
      { item3 with annotations := updateMapKeys item3.annotations m.annotationMappings }
    else item3
  let item5 :=
    if 0 < m.labelMappings.length then
      { item4 with labels := updateMapKeys item4.labels m.labelMappings }
    else item4
  tracker.updateOwnerRefs item5

theorem getTargetNamespace_eq (m : MigratorCfg) (s : String) :
    m.getTargetNamespace s = (m.namespaceMappings.lookup s).getD s := by
  unfold MigratorCfg.getTargetNamespace
  cases m.namespaceMappings.lookup s <;> rfl

/-- **C4.** The per-item preparation before creation sets exactly:
apiVersion to the target group/version, resourceVersion to empty, namespace
to the mapped value (or the original when unmapped), label/annotation keys
rewritten per the configured pairs (only when mappings are configured), and
owner references rewritten per the tracker's rules; kind, name, UID and the
opaque payload are unchanged. -/
theorem prepare_for_create_spec (m : MigratorCfg) (tracker : CreatedItemsTracker) (item : Item) :
    (prepareForCreate m tracker item).apiVersion = m.newGroupVersion ∧
    (prepareForCreate m tracker item).resourceVersion = "" ∧
    (prepareForCreate m tracker item).ns = (m.namespaceMappings.lookup item.ns).getD item.ns ∧
    (prepareForCreate m tracker item).kind = item.kind ∧
    (prepareForCreate m tracker item).name = item.name ∧
    (prepareForCreate m tracker item).uid = item.uid ∧
    (prepareForCreate m tracker item).payload = item.payload ∧
    (m.annotationMappings = [] →
      (prepareForCreate m tracker item).annotations = item.annotations) ∧
    (m.annotationMappings ≠ [] →
      (prepareForCreate m tracker item).annotations
        = updateMapKeys item.annotations m.annotationMappings) ∧
    (m.labelMappings = [] → (prepareForCreate m tracker item).labels = item.labels) ∧
    (m.labelMappings ≠ [] →
      (prepareForCreate m tracker item).labels = updateMapKeys item.labels m.labelMappings) ∧
    (prepareForCreate m tracker item).ownerReferences
      = item.ownerReferences.map (fun r => (tracker.updateOwnerRef r).1) := by
  unfold prepareForCreate CreatedItemsTracker.updateOwnerRefs
  by_cases ha : m.annotationMappings = [] <;> by_cases hl : m.labelMappings = [] <;>
    simp [ha, hl, List.length_pos, getTargetNamespace_eq]

/-- A configuration with namespace, label and annotation mappings. -/
def exCfg : MigratorCfg :=
  ⟨"old/v1", "new/v1", [("ns-1", "ns-2")], [("foo.io", "bar.io")],
   [("foo.io", "bar.io")], [("bars", "foos")]⟩

/-- Witness for `prepare_for_create_spec` on a concrete item. -/
theorem prepare_for_create_spec_witness :
    (prepareForCreate exCfg exTracker exItem).apiVersion = exCfg.newGroupVersion ∧
    (prepareForCreate exCfg exTracker exItem).resourceVersion = "" ∧
    (prepareForCreate exCfg exTracker exItem).ns
      = (exCfg.namespaceMappings.lookup exItem.ns).getD exItem.ns ∧
    (prepareForCreate exCfg exTracker exItem).kind = exItem.kind ∧
    (prepareForCreate exCfg exTracker exItem).name = exItem.name ∧
    (prepareForCreate exCfg exTracker exItem).uid = exItem.uid ∧
    (prepareForCreate exCfg exTracker exItem).payload = exItem.payload ∧
    (exCfg.annotationMappings = [] →
      (prepareForCreate exCfg exTracker exItem).annotations = exItem.annotations) ∧
    (exCfg.annotationMappings ≠ [] →
      (prepareForCreate exCfg exTracker exItem).annotations
        = updateMapKeys exItem.annotations exCfg.annotationMappings) ∧
    (exCfg.labelMappings = [] →
      (prepareForCreate exCfg exTracker exItem).labels = exItem.labels) ∧
    (exCfg.labelMappings ≠ [] →
      (prepareForCreate exCfg exTracker exItem).labels
        = updateMapKeys exItem.labels exCfg.labelMappings) ∧
    (prepareForCreate exCfg exTracker exItem).ownerReferences
      = exItem.ownerReferences.map (fun r => (exTracker.updateOwnerRef r).1) :=
  prepare_for_create_spec exCfg exTracker exItem

/-! ## External collaborators (spec section 6) and the migration pass -/

/-- Modelled from the spec (section 6): the resource-store collaborator on
the target group — the only external state a pass mutates.  Entries are
(resource name, stored item); `create` assigns a fresh store UID. -/
structure TargetStore where
  entries : List (String × Item)
  nextUID : Nat
deriving DecidableEq, Repr

/-- `get(name, ...)` on the target group, scoped to the namespace chosen by
`clientForItem`. -/
def TargetStore.get (st : TargetStore) (resource ns name : String) : Option Item :=
  (st.entries.find?
    (fun e => e.1 == resource && e.2.ns == ns && e.2.name == name)).map (·.2)

/-- `create(item, ...)`: store the item under the resource with a fresh UID
and return the stored item. -/
def TargetStore.create (st : TargetStore) (resource : String) (item : Item) :
    Item × TargetStore :=
  let created := { item with uid := toString st.nextUID }
  (created, ⟨(resource, created) :: st.entries, st.nextUID + 1⟩)

/-- Modelled from the spec (section 6): the read-only collaborators of a
pass — discovery of the source group's resources, listing of source items
by resource name, and `validateNewCRD`'s target-side precondition (false
when the target CRD is missing or still declares `spec.subresources.status`). -/
structure Cluster where
  serverResources : List APIResource
  sourceItems : String → List Item
  crdOk : String → Bool

/-- Per-item outcome of `migrateOneResourceInstance` (spec section 4.5);
transport errors cannot occur against this store model. -/
inductive Outcome where
  | alreadyExists
  | created
deriving DecidableEq, Repr

/-- `Migrator.migrateOneResourceInstance`: look the item up in the target
group first; if present, record its identity and do nothing; otherwise
prepare and create it, then record the created identity. -/
def migrateOneResourceInstance (m : MigratorCfg) (st : TargetStore)
    (tr : CreatedItemsTracker) (resourceName : String) (item : Item) :
    Outcome × TargetStore × CreatedItemsTracker :=
  match st.get resourceName (m.getTargetNamespace item.ns) item.name with
  | some existingItem => (Outcome.alreadyExists, st, tr.registerCreatedItem existingItem)
  | none =>
    let prepared := prepareForCreate m tr item
    let t := st.create resourceName prepared
    (Outcome.created, t.2, tr.registerCreatedItem t.1)

/-- The `for _, item := range list.Items` loop of `migrateOneResource`. -/
def migrateItemList (m : MigratorCfg) (resourceName : String) :
    List Item → TargetStore → CreatedItemsTracker →
    TargetStore × CreatedItemsTracker × List Outcome
  | [], st, tr => (st, tr, [])
  | item :: rest, st, tr =>
    let t := migrateOneResourceInstance m st tr resourceName item
    let t2 := migrateItemList m resourceName rest t.2.1 t.2.2
    (t2.1, t2.2.1, t.1 :: t2.2.2)

/-- `Migrator.migrateOneResource`: skip the whole kind when the
`validateNewCRD` precondition fails, else migrate each listed instance. -/
def migrateOneResource (m : MigratorCfg) (env : Cluster) (st : TargetStore)
    (tr : CreatedItemsTracker) (resource : APIResource) :
    TargetStore × CreatedItemsTracker × List Outcome :=
  if env.crdOk resource.Name then
    migrateItemList m resource.Name (env.sourceItems resource.Name) st tr
  else (st, tr, [])

/-- The `serverResourcesByName` map of the passes (later entries win, as in
a Go map). -/
def buildByName (resources : List APIResource) : SMap APIResource :=
  resources.foldl (fun m r => m.insert r.Name r) []

/-- `calculateResourcePriorities`: build the graph from the owner-mapping
pairs and topologically sort it. -/
def calculateResourcePriorities (parentChildMappings : SMap String)
    (order : List String) : Option (List String) :=
  (Graph.ofEdges parentChildMappings).sortWith order

/-- The zero value Go yields for a missing `map[string]APIResource` key. -/
def zeroAPIResource : APIResource := ⟨"", "", false⟩

/-- The first loop of `MigrateAllResources`: process the sorted priorities,
registering each parent kind before migrating it, and delete each processed
name from the name → resource map. -/
def prioritiesLoop (m : MigratorCfg) (env : Cluster) :
    List String → SMap APIResource → TargetStore → CreatedItemsTracker → List Outcome →
    SMap APIResource × TargetStore × CreatedItemsTracker × List Outcome
  | [], byName, st, tr, outs => (byName, st, tr, outs)
  | resourceName :: rest, byName, st, tr, outs =>
    let resource := (byName.lookup resourceName).getD zeroAPIResource
    let tr1 := if (m.updateOwnerRefMappings.lookup resourceName).isSome
      then tr.registerResource resource else tr
    let t := migrateOneResource m env st tr1 resource
    prioritiesLoop m env rest (byName.erase resourceName) t.1 t.2.1 (outs ++ t.2.2)

/-- The second loop of `MigrateAllResources`, over the remaining resources
in the (modelled) iteration order of the map. -/
def remainingLoop (m : MigratorCfg) (env : Cluster) :
    List (String × APIResource) → TargetStore → CreatedItemsTracker → List Outcome →
    TargetStore × CreatedItemsTracker × List Outcome
  | [], st, tr, outs => (st, tr, outs)
  | (_, resource) :: rest, st, tr, outs =>
    let t := migrateOneResource m env st tr resource
    remainingLoop m env rest t.1 t.2.1 (outs ++ t.2.2)

/-- The result of a whole pass.  A `log.Fatal` call becomes a `fatal`
message together with the state at abort time (nothing has been listed,
prepared, created or registered when it fires). -/
structure PassResult where
  fatal : Option String
  store : TargetStore
  tracker : CreatedItemsTracker
  outcomes : List Outcome
deriving DecidableEq, Repr

/-- `Migrator.MigrateAllResources`.  `sortOrder` is the iteration order of
the dependency graph's node map. -/
def migrateAllResources (m : MigratorCfg) (env : Cluster) (sortOrder : List String)
    (st : TargetStore) (tr : CreatedItemsTracker) : PassResult :=
  let serverResourcesByName := buildByName env.serverResources
  match calculateResourcePriorities m.updateOwnerRefMappings sortOrder with
  | none => ⟨some "--update-owner-refs contains a cycle", st, tr, []⟩
  | some resourcePriorities =>
    match resourcePriorities.find?
        (fun r => (serverResourcesByName.lookup r).isNone) with
    | some missing => ⟨some ("unable to find resource " ++ missing), st, tr, []⟩
    | none =>
      let t := prioritiesLoop m env resourcePriorities serverResourcesByName st tr []
      let t2 := remainingLoop m env t.1 t.2.1 t.2.2.1 t.2.2.2
      ⟨none, t2.1, t2.2.1, t2.2.2⟩

/-- `nil == resourceSet || resourceSet.has(resourceName)`; `none` models the
nil `stringSet`. -/
def stringSetHasOrNil (s : Option (List String)) (v : String) : Bool :=
  match s with
  | none => true
  | some l => l.contains v

/-- The first loop of `MigrateSomeResources`: registration is unconditional,
migration is guarded by the inclusion set. -/
def prioritiesLoopSome (m : MigratorCfg) (env : Cluster)
    (resourceSet : Option (List String)) :
    List String → SMap APIResource → TargetStore → CreatedItemsTracker → List Outcome →
    SMap APIResource × TargetStore × CreatedItemsTracker × List Outcome
  | [], byName, st, tr, outs => (byName, st, tr, outs)
  | resourceName :: rest, byName, st, tr, outs =>
    let resource := (byName.lookup resourceName).getD zeroAPIResource
    let tr1 := if (m.updateOwnerRefMappings.lookup resourceName).isSome
      then tr.registerResource resource else tr
    let t := if stringSetHasOrNil resourceSet resourceName
      then migrateOneResource m env st tr1 resource else (st, tr1, [])
    prioritiesLoopSome m env resourceSet rest (byName.erase resourceName) t.1 t.2.1 (outs ++ t.2.2)

/-- The second loop of `MigrateSomeResources`. -/
def remainingLoopSome (m : MigratorCfg) (env : Cluster)
    (resourceSet : Option (List String)) :
    List (String × APIResource) → TargetStore → CreatedItemsTracker → List Outcome →
    TargetStore × CreatedItemsTracker × List Outcome
  | [], st, tr, outs => (st, tr, outs)
  | (_, resource) :: rest, st, tr, outs =>
    let t := if stringSetHasOrNil resourceSet resource.Name
      then migrateOneResource m env st tr resource else (st, tr, [])
    remainingLoopSome m env resourceSet rest t.1 t.2.1 (outs ++ t.2.2)

/-- `Migrator.MigrateSomeResources`. -/
def migrateSomeResources (m : MigratorCfg) (env : Cluster) (sortOrder : List String)
    (resourceSet : Option (List String)) (st : TargetStore)
    (tr : CreatedItemsTracker) : PassResult :=
  let serverResourcesByName := buildByName env.serverResources
  match calculateResourcePriorities m.updateOwnerRefMappings sortOrder with
  | none => ⟨some "--update-owner-refs contains a cycle", st, tr, []⟩
  | some resourcePriorities =>
    match resourcePriorities.find?
        (fun r => (serverResourcesByName.lookup r).isNone) with
    | some missing => ⟨some ("unable to find resource " ++ missing), st, tr, []⟩
    | none =>
      let t := prioritiesLoopSome m env resourceSet resourcePriorities serverResourcesByName st tr []
      let t2 := remainingLoopSome m env resourceSet t.1 t.2.1 t.2.2.1 t.2.2.2
      ⟨none, t2.1, t2.2.1, t2.2.2⟩

/-! ### The already-exists path (C5) -/

theorem migrateOneResourceInstance_found (m : MigratorCfg) (st : TargetStore)
    (tr : CreatedItemsTracker) (resourceName : String) (item existing : Item)
    (h : st.get resourceName (m.getTargetNamespace item.ns) item.name = some existing) :
    migrateOneResourceInstance m st tr resourceName item
      = (Outcome.alreadyExists, st, tr.registerCreatedItem existing) := by
  unfold migrateOneResourceInstance
  rw [h]

/-- **C5.** For an item whose name already exists in the target group in the
mapped namespace, the per-item migration mutates nothing: the target store
is returned unchanged, the existing item's identity is registered with the
tracker, and the outcome is the already-exists skip (no create happens). -/
theorem migrate_existing_item_no_mutation (m : MigratorCfg) (st : TargetStore)
    (tr : CreatedItemsTracker) (resourceName : String) (item existing : Item)
    (h : st.get resourceName (m.getTargetNamespace item.ns) item.name = some existing) :
    migrateOneResourceInstance m st tr resourceName item
      = (Outcome.alreadyExists, st, tr.registerCreatedItem existing) :=
  migrateOneResourceInstance_found m st tr resourceName item existing h

/-- An item already present in the target store where `exItem` would land
under `exCfg` (namespace `ns-1` maps to `ns-2`). -/
def exStoredItem : Item :=
  ⟨"new/v1", "Foo", "child-1", "ns-2", "", "uid-9", [], [], [], ""⟩

def exStore : TargetStore := ⟨[("foos", exStoredItem)], 5⟩

/-- Witness for `migrate_existing_item_no_mutation`. -/
theorem migrate_existing_item_no_mutation_witness :
    exStore.get "foos" (exCfg.getTargetNamespace exItem.ns) exItem.name = some exStoredItem ∧
    migrateOneResourceInstance exCfg exStore exTracker "foos" exItem
      = (Outcome.alreadyExists, exStore, exTracker.registerCreatedItem exStoredItem) :=
  ⟨by decide,
    migrate_existing_item_no_mutation exCfg exStore exTracker "foos" exItem exStoredItem
      (by decide)⟩

/-! ### Fail-fast prechecks (C6) -/

theorem sortWith_none_of_cyclic (es : List (String × String)) (order : List String)
    (h1 : ∀ n ∈ order, n ∈ (Graph.ofEdges es).nodes)
    (h2 : ∀ n ∈ (Graph.ofEdges es).nodes, n ∈ order)
    (hcyc : ¬ (Graph.ofEdges es).Acyclic) :
    (Graph.ofEdges es).sortWith order = none := by
  cases hs : (Graph.ofEdges es).sortWith order with
  | none => rfl
  | some l => exact absurd (acyclic_of_sortWith_ofEdges_some es order l h1 h2 hs) hcyc

/-- **C6.** A configuration whose owner-mapping edge set has a cycle, or
whose computed ordering names a kind absent from the discovered kind set,
makes the whole pass abort before anything happens: the result is fatal and
carries the target store and tracker unchanged, with no per-item outcome. -/
theorem pass_aborts_before_mutation (m : MigratorCfg) (env : Cluster)
    (sortOrder : List String) (st : TargetStore) (tr : CreatedItemsTracker)
    (horder : sortOrder.Perm (Graph.ofEdges m.updateOwnerRefMappings).nodes)
    (h : ¬ (Graph.ofEdges m.updateOwnerRefMappings).Acyclic ∨
        (∃ ps, calculateResourcePriorities m.updateOwnerRefMappings sortOrder = some ps ∧
          ∃ r ∈ ps, (buildByName env.serverResources).lookup r = none)) :
    (migrateAllResources m env sortOrder st tr).fatal.isSome ∧
    (migrateAllResources m env sortOrder st tr).store = st ∧
    (migrateAllResources m env sortOrder st tr).tracker = tr ∧
    (migrateAllResources m env sortOrder st tr).outcomes = [] := by
  have h1 : ∀ n ∈ sortOrder, n ∈ (Graph.ofEdges m.updateOwnerRefMappings).nodes :=
    fun n hn => horder.mem_iff.mp hn
  have h2 : ∀ n ∈ (Graph.ofEdges m.updateOwnerRefMappings).nodes, n ∈ sortOrder :=
    fun n hn => horder.mem_iff.mpr hn
  rcases h with hcyc | ⟨ps, hps, r, hr, hmiss⟩
  · have hnone : calculateResourcePriorities m.updateOwnerRefMappings sortOrder = none := by
      unfold calculateResourcePriorities
      exact sortWith_none_of_cyclic _ sortOrder h1 h2 hcyc
    unfold migrateAllResources
    rw [hnone]
    exact ⟨rfl, rfl, rfl, rfl⟩
  · have hfind : (ps.find?
        (fun r => ((buildByName env.serverResources).lookup r).isNone)).isSome := by
      rw [List.find?_isSome]
      exact ⟨r, hr, by rw [hmiss]; rfl⟩
    cases hf : ps.find? (fun r => ((buildByName env.serverResources).lookup r).isNone) with
    | none => rw [hf] at hfind; cases hfind
    | some missing =>
      unfold migrateAllResources
      simp [hps, hf]

/-- Witness for `pass_aborts_before_mutation`: the two-cycle `a ↔ b`. -/
theorem pass_aborts_before_mutation_witness :
    ((["a", "b"] : List String).Perm
        (Graph.ofEdges (MigratorCfg.updateOwnerRefMappings
          ⟨"old/v1", "new/v1", [], [], [], [("a", "b"), ("b", "a")]⟩)).nodes ∧
      ¬ (Graph.ofEdges (MigratorCfg.updateOwnerRefMappings
          ⟨"old/v1", "new/v1", [], [], [], [("a", "b"), ("b", "a")]⟩)).Acyclic) ∧
    ((migrateAllResources ⟨"old/v1", "new/v1", [], [], [], [("a", "b"), ("b", "a")]⟩
        ⟨[], fun _ => [], fun _ => true⟩ ["a", "b"] exStore exTracker).fatal.isSome ∧
      (migrateAllResources ⟨"old/v1", "new/v1", [], [], [], [("a", "b"), ("b", "a")]⟩
        ⟨[], fun _ => [], fun _ => true⟩ ["a", "b"] exStore exTracker).store = exStore ∧
      (migrateAllResources ⟨"old/v1", "new/v1", [], [], [], [("a", "b"), ("b", "a")]⟩
        ⟨[], fun _ => [], fun _ => true⟩ ["a", "b"] exStore exTracker).tracker = exTracker ∧
      (migrateAllResources ⟨"old/v1", "new/v1", [], [], [], [("a", "b"), ("b", "a")]⟩
        ⟨[], fun _ => [], fun _ => true⟩ ["a", "b"] exStore exTracker).outcomes = []) := by
  have hcyc : ¬ (Graph.ofEdges (MigratorCfg.updateOwnerRefMappings
      ⟨"old/v1", "new/v1", [], [], [], [("a", "b"), ("b", "a")]⟩)).Acyclic := by
    intro hac
    have e1 : (Graph.ofEdges [("a", "b"), ("b", "a")]).Edge "a" "b" := by decide
    have e2 : (Graph.ofEdges [("a", "b"), ("b", "a")]).Edge "b" "a" := by decide
    exact hac "a" (Relation.TransGen.tail (Relation.TransGen.single e1) e2)
  exact ⟨⟨by decide, hcyc⟩,
    pass_aborts_before_mutation _ ⟨[], fun _ => [], fun _ => true⟩ ["a", "b"]
      exStore exTracker (by decide) (Or.inl hcyc)⟩

/-! ### Idempotency machinery (C7): presence in the target store -/

/-- Some item answers a target `get` at this key. -/
def PresentIn (st : TargetStore) (resource ns name : String) : Prop :=
  (st.get resource ns name).isSome

/-- The target store only gains entries. -/
def StoreLe (st st' : TargetStore) : Prop :=
  ∀ r ns n, PresentIn st r ns n → PresentIn st' r ns n

theorem StoreLe.storele_refl (st : TargetStore) : StoreLe st st := fun _ _ _ h => h

theorem StoreLe.storele_trans {a b c : TargetStore} (h1 : StoreLe a b) (h2 : StoreLe b c) :
    StoreLe a c := fun r ns n h => h2 r ns n (h1 r ns n h)

theorem prepareForCreate_ns (m : MigratorCfg) (tracker : CreatedItemsTracker) (item : Item) :
    (prepareForCreate m tracker item).ns = m.getTargetNamespace item.ns := by
  unfold prepareForCreate CreatedItemsTracker.updateOwnerRefs
  split_ifs <;> rfl

theorem prepareForCreate_name (m : MigratorCfg) (tracker : CreatedItemsTracker) (item : Item) :
    (prepareForCreate m tracker item).name = item.name := by
  unfold prepareForCreate CreatedItemsTracker.updateOwnerRefs
  split_ifs <;> rfl

theorem optmap_isSome {A B : Type} (f : A → B) (o : Option A) :
    (o.map f).isSome = o.isSome := by
  cases o <;> rfl

theorem find?_cons_isSome {A : Type} (p : A → Bool) (a : A) (l : List A)
    (h : (l.find? p).isSome = true) : ((a :: l).find? p).isSome = true := by
  rw [List.find?_cons]
  cases hp : p a
  · simpa using h
  · simp

theorem storeLe_create (st : TargetStore) (resource : String) (item : Item) :
    StoreLe st (st.create resource item).2 := by
  intro r ns n h
  unfold PresentIn TargetStore.get at h ⊢
  rw [optmap_isSome] at h ⊢
  exact find?_cons_isSome _ _ _ h

theorem present_create (st : TargetStore) (resource : String) (item : Item) :
    PresentIn (st.create resource item).2 resource item.ns item.name := by
  unfold PresentIn TargetStore.get
  rw [optmap_isSome]
  show (((resource, { item with uid := toString st.nextUID }) :: st.entries).find?
      (fun e => e.1 == resource && e.2.ns == item.ns && e.2.name == item.name)).isSome = true
  rw [List.find?_cons_of_pos]
  · rfl
  · simp

/-- One per-item migration can only add target entries. -/
theorem migrateOneResourceInstance_storeLe (m : MigratorCfg) (st : TargetStore)
    (tr : CreatedItemsTracker) (rn : String) (item : Item) :
    StoreLe st (migrateOneResourceInstance m st tr rn item).2.1 := by
  unfold migrateOneResourceInstance
  cases hg : st.get rn (m.getTargetNamespace item.ns) item.name with
  | some existing => exact StoreLe.storele_refl st
  | none => exact storeLe_create st rn (prepareForCreate m tr item)

/-- After one per-item migration, the item is present at its target key. -/
theorem migrateOneResourceInstance_present (m : MigratorCfg) (st : TargetStore)
    (tr : CreatedItemsTracker) (rn : String) (item : Item) :
    PresentIn (migrateOneResourceInstance m st tr rn item).2.1
      rn (m.getTargetNamespace item.ns) item.name := by
  unfold migrateOneResourceInstance
  cases hg : st.get rn (m.getTargetNamespace item.ns) item.name with
  | some existing =>
    show (st.get rn (m.getTargetNamespace item.ns) item.name).isSome
    rw [hg]
    rfl
  | none =>
    have h := present_create st rn (prepareForCreate m tr item)
    rw [prepareForCreate_ns, prepareForCreate_name] at h
    exact h

theorem migrateItemList_cons (m : MigratorCfg) (rn : String) (item : Item)
    (rest : List Item) (st : TargetStore) (tr : CreatedItemsTracker) :
    migrateItemList m rn (item :: rest) st tr =
      ((migrateItemList m rn rest (migrateOneResourceInstance m st tr rn item).2.1
          (migrateOneResourceInstance m st tr rn item).2.2).1,
       (migrateItemList m rn rest (migrateOneResourceInstance m st tr rn item).2.1
          (migrateOneResourceInstance m st tr rn item).2.2).2.1,
       (migrateOneResourceInstance m st tr rn item).1 ::
         (migrateItemList m rn rest (migrateOneResourceInstance m st tr rn item).2.1
            (migrateOneResourceInstance m st tr rn item).2.2).2.2) := rfl

theorem migrateItemList_storeLe (m : MigratorCfg) (rn : String) :
    ∀ (items : List Item) (st : TargetStore) (tr : CreatedItemsTracker),
      StoreLe st (migrateItemList m rn items st tr).1 := by
  intro items
  induction items with
  | nil => intro st tr; exact StoreLe.storele_refl st
  | cons item rest ih =>
    intro st tr
    rw [migrateItemList_cons]
    exact (migrateOneResourceInstance_storeLe m st tr rn item).storele_trans (ih _ _)

theorem migrateItemList_establish (m : MigratorCfg) (rn : String) :
    ∀ (items : List Item) (st : TargetStore) (tr : CreatedItemsTracker),
      ∀ it ∈ items,
        PresentIn (migrateItemList m rn items st tr).1
          rn (m.getTargetNamespace it.ns) it.name := by
  intro items
  induction items with
  | nil => intro st tr it hit; cases hit
  | cons item rest ih =>
    intro st tr it hit
    rw [migrateItemList_cons]
    rcases List.mem_cons.mp hit with rfl | hit'
    · exact migrateItemList_storeLe m rn rest _ _ _ _ _
        (migrateOneResourceInstance_present m st tr rn it)
    · exact ih _ _ it hit'

theorem migrateItemList_preserve (m : MigratorCfg) (rn : String) :
    ∀ (items : List Item) (st : TargetStore) (tr : CreatedItemsTracker),
      (∀ it ∈ items, PresentIn st rn (m.getTargetNamespace it.ns) it.name) →
      (migrateItemList m rn items st tr).1 = st ∧
      (∀ o ∈ (migrateItemList m rn items st tr).2.2, o = Outcome.alreadyExists) := by
  intro items
  induction items with
  | nil => intro st tr _; exact ⟨rfl, by intro o ho; cases ho⟩
  | cons item rest ih =>
    intro st tr hpres
    have hp := hpres item (List.mem_cons_self _ _)
    obtain ⟨existing, hex⟩ : ∃ e,
        st.get rn (m.getTargetNamespace item.ns) item.name = some e := by
      unfold PresentIn at hp
      cases hg : st.get rn (m.getTargetNamespace item.ns) item.name with
      | none => rw [hg] at hp; cases hp
      | some e => exact ⟨e, rfl⟩
    have hinst := migrateOneResourceInstance_found m st tr rn item existing hex
    rw [migrateItemList_cons, hinst]
    have hrest := ih st (tr.registerCreatedItem existing)
      (fun it hit => hpres it (List.mem_cons_of_mem _ hit))
    refine ⟨hrest.1, ?_⟩
    intro o ho
    rcases List.mem_cons.mp ho with rfl | ho'
    · rfl
    · exact hrest.2 o ho'

/-! ### Pass factorization: both loops as one plan runner -/

/-- The work list the priorities loop executes: for each priority name, a
register-this-parent flag and the resource looked up in the (shrinking)
name map.  It depends only on the configuration and the discovery data,
never on the store or tracker. -/
def planOfPriorities (m : MigratorCfg) :
    List String → SMap APIResource → List (Bool × APIResource)
  | [], _ => []
  | p :: rest, byName =>
    ((m.updateOwnerRefMappings.lookup p).isSome,
      (byName.lookup p).getD zeroAPIResource)
      :: planOfPriorities m rest (byName.erase p)

/-- What is left of the name map after the priorities loop. -/
def remainderAfter : List String → SMap APIResource → SMap APIResource
  | [], byName => byName
  | p :: rest, byName => remainderAfter rest (byName.erase p)

/-- Run a work list: optionally register the kind, then migrate it. -/
def processPlan (m : MigratorCfg) (env : Cluster) :
    List (Bool × APIResource) → TargetStore → CreatedItemsTracker → List Outcome →
    TargetStore × CreatedItemsTracker × List Outcome
  | [], st, tr, outs => (st, tr, outs)
  | pr :: rest, st, tr, outs =>
    let t := migrateOneResource m env st
      (if pr.1 then tr.registerResource pr.2 else tr) pr.2
    processPlan m env rest t.1 t.2.1 (outs ++ t.2.2)

theorem prioritiesLoop_eq (m : MigratorCfg) (env : Cluster) :
    ∀ (ps : List String) (byName : SMap APIResource) (st : TargetStore)
      (tr : CreatedItemsTracker) (outs : List Outcome),
      prioritiesLoop m env ps byName st tr outs
        = (remainderAfter ps byName,
           processPlan m env (planOfPriorities m ps byName) st tr outs) := by
  intro ps
  induction ps with
  | nil => intro byName st tr outs; rfl
  | cons p rest ih =>
    intro byName st tr outs
    show prioritiesLoop m env (p :: rest) byName st tr outs = _
    rw [prioritiesLoop, remainderAfter, planOfPriorities, processPlan]
    exact ih _ _ _ _

theorem remainingLoop_eq (m : MigratorCfg) (env : Cluster) :
    ∀ (l : List (String × APIResource)) (st : TargetStore)
      (tr : CreatedItemsTracker) (outs : List Outcome),
      remainingLoop m env l st tr outs
        = processPlan m env (l.map (fun e => (false, e.2))) st tr outs := by
  intro l
  induction l with
  | nil => intro st tr outs; rfl
  | cons e rest ih =>
    intro st tr outs
    rw [List.map_cons, remainingLoop, processPlan]
    exact ih _ _ _

/-! ### Establishing and preserving presence over a plan -/

/-- Every listed item of every kind of the plan (whose target CRD check
passes) is present in the store. -/
def PlanPresent (m : MigratorCfg) (env : Cluster) (st : TargetStore)
    (plan : List (Bool × APIResource)) : Prop :=
  ∀ pr ∈ plan, env.crdOk pr.2.Name = true →
    ∀ it ∈ env.sourceItems pr.2.Name,
      PresentIn st pr.2.Name (m.getTargetNamespace it.ns) it.name

theorem planPresent_mono (m : MigratorCfg) (env : Cluster) {st st' : TargetStore}
    (plan : List (Bool × APIResource)) (hle : StoreLe st st')
    (h : PlanPresent m env st plan) : PlanPresent m env st' plan := by
  intro pr hpr hok it hit
  exact hle _ _ _ (h pr hpr hok it hit)

theorem migrateOneResource_storeLe (m : MigratorCfg) (env : Cluster)
    (st : TargetStore) (tr : CreatedItemsTracker) (resource : APIResource) :
    StoreLe st (migrateOneResource m env st tr resource).1 := by
  unfold migrateOneResource
  by_cases hok : env.crdOk resource.Name
  · rw [if_pos hok]
    exact migrateItemList_storeLe m resource.Name _ st tr
  · rw [if_neg hok]
    exact StoreLe.storele_refl st

theorem migrateOneResource_establish (m : MigratorCfg) (env : Cluster)
    (st : TargetStore) (tr : CreatedItemsTracker) (resource : APIResource)
    (hok : env.crdOk resource.Name = true) :
    ∀ it ∈ env.sourceItems resource.Name,
      PresentIn (migrateOneResource m env st tr resource).1
        resource.Name (m.getTargetNamespace it.ns) it.name := by
  intro it hit
  unfold migrateOneResource
  rw [if_pos hok]
  exact migrateItemList_establish m resource.Name _ st tr it hit

theorem migrateOneResource_preserve (m : MigratorCfg) (env : Cluster)
    (st : TargetStore) (tr : CreatedItemsTracker) (resource : APIResource)
    (hpres : env.crdOk resource.Name = true →
      ∀ it ∈ env.sourceItems resource.Name,
        PresentIn st resource.Name (m.getTargetNamespace it.ns) it.name) :
    (migrateOneResource m env st tr resource).1 = st ∧
    (∀ o ∈ (migrateOneResource m env st tr resource).2.2, o = Outcome.alreadyExists) := by
  unfold migrateOneResource
  by_cases hok : env.crdOk resource.Name
  · rw [if_pos hok]
    exact migrateItemList_preserve m resource.Name _ st tr (hpres hok)
  · rw [if_neg hok]
    exact ⟨rfl, by intro o ho; cases ho⟩

theorem processPlan_cons (m : MigratorCfg) (env : Cluster) (pr : Bool × APIResource)
    (rest : List (Bool × APIResource)) (st : TargetStore) (tr : CreatedItemsTracker)
    (outs : List Outcome) :
    processPlan m env (pr :: rest) st tr outs
      = processPlan m env rest
          (migrateOneResource m env st (if pr.1 then tr.registerResource pr.2 else tr) pr.2).1
          (migrateOneResource m env st (if pr.1 then tr.registerResource pr.2 else tr) pr.2).2.1
          (outs ++ (migrateOneResource m env st
            (if pr.1 then tr.registerResource pr.2 else tr) pr.2).2.2) := rfl

theorem processPlan_storeLe (m : MigratorCfg) (env : Cluster) :
    ∀ (plan : List (Bool × APIResource)) (st : TargetStore)
      (tr : CreatedItemsTracker) (outs : List Outcome),
      StoreLe st (processPlan m env plan st tr outs).1 := by
  intro plan
  induction plan with
  | nil => intro st tr outs; exact StoreLe.storele_refl st
  | cons pr rest ih =>
    intro st tr outs
    rw [processPlan_cons]
    exact (migrateOneResource_storeLe m env st _ pr.2).storele_trans (ih _ _ _)

theorem processPlan_establish (m : MigratorCfg) (env : Cluster) :
    ∀ (plan : List (Bool × APIResource)) (st : TargetStore)
      (tr : CreatedItemsTracker) (outs : List Outcome),
      PlanPresent m env (processPlan m env plan st tr outs).1 plan := by
  intro plan
  induction plan with
  | nil => intro st tr outs pr hpr; cases hpr
  | cons pr rest ih =>
    intro st tr outs pr' hpr' hok it hit
    rw [processPlan_cons]
    rcases List.mem_cons.mp hpr' with rfl | hpr''
    · exact processPlan_storeLe m env rest _ _ _ _ _ _
        (migrateOneResource_establish m env st _ pr'.2 hok it hit)
    · exact ih _ _ _ pr' hpr'' hok it hit

theorem processPlan_preserve (m : MigratorCfg) (env : Cluster) :
    ∀ (plan : List (Bool × APIResource)) (st : TargetStore)
      (tr : CreatedItemsTracker) (outs : List Outcome),
      PlanPresent m env st plan →
      (processPlan m env plan st tr outs).1 = st ∧
      (∀ o ∈ (processPlan m env plan st tr outs).2.2,
        o ∈ outs ∨ o = Outcome.alreadyExists) := by
  intro plan
  induction plan with
  | nil => intro st tr outs _; exact ⟨rfl, fun o ho => Or.inl ho⟩
  | cons pr rest ih =>
    intro st tr outs hpres
    have hhead := migrateOneResource_preserve m env st
      (if pr.1 then tr.registerResource pr.2 else tr) pr.2
      (fun hok => hpres pr (List.mem_cons_self _ _) hok)
    rw [processPlan_cons, hhead.1]
    have hrest := ih st
      (migrateOneResource m env st (if pr.1 then tr.registerResource pr.2 else tr) pr.2).2.1
      (outs ++ (migrateOneResource m env st
        (if pr.1 then tr.registerResource pr.2 else tr) pr.2).2.2)
      (fun q hq => hpres q (List.mem_cons_of_mem _ hq))
    refine ⟨hrest.1, ?_⟩
    intro o ho
    rcases hrest.2 o ho with h | h
    · rcases List.mem_append.mp h with h' | h'
      · exact Or.inl h'
      · exact Or.inr (hhead.2 o h')
    · exact Or.inr h

/-! ### The pass in plan form, and idempotency (C7) -/

theorem migrateAllResources_cycle (m : MigratorCfg) (env : Cluster)
    (sortOrder : List String)
    (hps : calculateResourcePriorities m.updateOwnerRefMappings sortOrder = none)
    (st : TargetStore) (tr : CreatedItemsTracker) :
    migrateAllResources m env sortOrder st tr
      = ⟨some "--update-owner-refs contains a cycle", st, tr, []⟩ := by
  unfold migrateAllResources
  rw [hps]

theorem migrateAllResources_missing (m : MigratorCfg) (env : Cluster)
    (sortOrder : List String) (ps : List String) (missing : String)
    (hps : calculateResourcePriorities m.updateOwnerRefMappings sortOrder = some ps)
    (hf : ps.find? (fun r => ((buildByName env.serverResources).lookup r).isNone)
      = some missing)
    (st : TargetStore) (tr : CreatedItemsTracker) :
    migrateAllResources m env sortOrder st tr
      = ⟨some ("unable to find resource " ++ missing), st, tr, []⟩ := by
  unfold migrateAllResources
  simp only [hps, hf]

/-- The two work lists of a (non-fatal) pass: the sorted priorities first,
then what remains of the discovered resources. -/
def passPlans (m : MigratorCfg) (env : Cluster) (ps : List String) :
    List (Bool × APIResource) × List (Bool × APIResource) :=
  (planOfPriorities m ps (buildByName env.serverResources),
   (remainderAfter ps (buildByName env.serverResources)).map (fun e => (false, e.2)))

/-- Both plan runs of a pass, sequenced. -/
def runTwoPlans (m : MigratorCfg) (env : Cluster)
    (plan1 plan2 : List (Bool × APIResource)) (st : TargetStore)
    (tr : CreatedItemsTracker) : TargetStore × CreatedItemsTracker × List Outcome :=
  processPlan m env plan2
    (processPlan m env plan1 st tr []).1
    (processPlan m env plan1 st tr []).2.1
    (processPlan m env plan1 st tr []).2.2

theorem migrateAllResources_nonfatal (m : MigratorCfg) (env : Cluster)
    (sortOrder : List String) (ps : List String)
    (hps : calculateResourcePriorities m.updateOwnerRefMappings sortOrder = some ps)
    (hf : ps.find? (fun r => ((buildByName env.serverResources).lookup r).isNone) = none)
    (st : TargetStore) (tr : CreatedItemsTracker) :
    migrateAllResources m env sortOrder st tr
      = ⟨none,
         (runTwoPlans m env (passPlans m env ps).1 (passPlans m env ps).2 st tr).1,
         (runTwoPlans m env (passPlans m env ps).1 (passPlans m env ps).2 st tr).2.1,
         (runTwoPlans m env (passPlans m env ps).1 (passPlans m env ps).2 st tr).2.2⟩ := by
  unfold migrateAllResources runTwoPlans passPlans
  simp only [hps, hf]
  rw [prioritiesLoop_eq, remainingLoop_eq]

theorem runTwoPlans_establish (m : MigratorCfg) (env : Cluster)
    (plan1 plan2 : List (Bool × APIResource)) (st : TargetStore)
    (tr : CreatedItemsTracker) :
    PlanPresent m env (runTwoPlans m env plan1 plan2 st tr).1 plan1 ∧
    PlanPresent m env (runTwoPlans m env plan1 plan2 st tr).1 plan2 := by
  unfold runTwoPlans
  constructor
  · exact planPresent_mono m env plan1 (processPlan_storeLe m env plan2 _ _ _)
      (processPlan_establish m env plan1 st tr [])
  · exact processPlan_establish m env plan2 _ _ _

theorem runTwoPlans_preserve (m : MigratorCfg) (env : Cluster)
    (plan1 plan2 : List (Bool × APIResource)) (st : TargetStore)
    (tr : CreatedItemsTracker)
    (h1 : PlanPresent m env st plan1) (h2 : PlanPresent m env st plan2) :
    (runTwoPlans m env plan1 plan2 st tr).1 = st ∧
    (∀ o ∈ (runTwoPlans m env plan1 plan2 st tr).2.2, o = Outcome.alreadyExists) := by
  unfold runTwoPlans
  have hp1 := processPlan_preserve m env plan1 st tr [] h1
  rw [hp1.1]
  have hp2 := processPlan_preserve m env plan2 st
    (processPlan m env plan1 st tr []).2.1 (processPlan m env plan1 st tr []).2.2 h2
  refine ⟨hp2.1, ?_⟩
  intro o ho
  rcases hp2.2 o ho with h | h
  · rcases hp1.2 o h with h' | h'
    · cases h'
    · exact h'
  · exact h

/-- **C7.** Running a full pass a second time against the state the first
pass produced changes nothing: the second pass's store equals the first
pass's store (so one pass equals two consecutive passes in target-store
effect), and every per-item outcome of the second pass is the already-exists
skip. -/
theorem pass_idempotent (m : MigratorCfg) (env : Cluster) (sortOrder : List String)
    (st0 : TargetStore) (tr0 : CreatedItemsTracker) :
    (migrateAllResources m env sortOrder
        (migrateAllResources m env sortOrder st0 tr0).store
        (migrateAllResources m env sortOrder st0 tr0).tracker).store
      = (migrateAllResources m env sortOrder st0 tr0).store ∧
    (∀ o ∈ (migrateAllResources m env sortOrder
        (migrateAllResources m env sortOrder st0 tr0).store
        (migrateAllResources m env sortOrder st0 tr0).tracker).outcomes,
      o = Outcome.alreadyExists) := by
  cases hps : calculateResourcePriorities m.updateOwnerRefMappings sortOrder with
  | none =>
    simp only [migrateAllResources_cycle m env sortOrder hps]
    simp
  | some ps =>
    cases hf : ps.find?
        (fun r => ((buildByName env.serverResources).lookup r).isNone) with
    | some missing =>
      simp only [migrateAllResources_missing m env sortOrder ps missing hps hf]
      simp
    | none =>
      simp only [migrateAllResources_nonfatal m env sortOrder ps hps hf]
      have hest := runTwoPlans_establish m env (passPlans m env ps).1
        (passPlans m env ps).2 st0 tr0
      have hpre := runTwoPlans_preserve m env (passPlans m env ps).1
        (passPlans m env ps).2
        (runTwoPlans m env (passPlans m env ps).1 (passPlans m env ps).2 st0 tr0).1
        (runTwoPlans m env (passPlans m env ps).1 (passPlans m env ps).2 st0 tr0).2.1
        hest.1 hest.2
      exact ⟨hpre.1, hpre.2⟩

/-! ### `MigrateSomeResources` vs `MigrateAllResources` (C9) -/

theorem prioritiesLoopSome_none_eq (m : MigratorCfg) (env : Cluster) :
    ∀ (ps : List String) (byName : SMap APIResource) (st : TargetStore)
      (tr : CreatedItemsTracker) (outs : List Outcome),
      prioritiesLoopSome m env none ps byName st tr outs
        = prioritiesLoop m env ps byName st tr outs := by
  intro ps
  induction ps with
  | nil => intro byName st tr outs; rfl
  | cons p rest ih =>
    intro byName st tr outs
    rw [prioritiesLoopSome, prioritiesLoop]
    exact ih _ _ _ _

theorem remainingLoopSome_none_eq (m : MigratorCfg) (env : Cluster) :
    ∀ (l : List (String × APIResource)) (st : TargetStore)
      (tr : CreatedItemsTracker) (outs : List Outcome),
      remainingLoopSome m env none l st tr outs = remainingLoop m env l st tr outs := by
  intro l
  induction l with
  | nil => intro st tr outs; rfl
  | cons e rest ih =>
    intro st tr outs
    rw [remainingLoopSome, remainingLoop]
    exact ih _ _ _

theorem registerCreatedItem_resourcesByKind (c : CreatedItemsTracker) (i : Item) :
    (c.registerCreatedItem i).resourcesByKind = c.resourcesByKind := by
  unfold CreatedItemsTracker.registerCreatedItem
  cases c.createdItemsByKind.lookup i.kind <;> rfl

theorem migrateOneResourceInstance_resourcesByKind (m : MigratorCfg) (st : TargetStore)
    (tr : CreatedItemsTracker) (rn : String) (item : Item) :
    (migrateOneResourceInstance m st tr rn item).2.2.resourcesByKind
      = tr.resourcesByKind := by
  unfold migrateOneResourceInstance
  cases st.get rn (m.getTargetNamespace item.ns) item.name <;>
    exact registerCreatedItem_resourcesByKind _ _

theorem migrateItemList_resourcesByKind (m : MigratorCfg) (rn : String) :
    ∀ (items : List Item) (st : TargetStore) (tr : CreatedItemsTracker),
      (migrateItemList m rn items st tr).2.1.resourcesByKind = tr.resourcesByKind := by
  intro items
  induction items with
  | nil => intro st tr; rfl
  | cons item rest ih =>
    intro st tr
    rw [migrateItemList_cons]
    rw [ih]
    exact migrateOneResourceInstance_resourcesByKind m st tr rn item

theorem migrateOneResource_resourcesByKind (m : MigratorCfg) (env : Cluster)
    (st : TargetStore) (tr : CreatedItemsTracker) (resource : APIResource) :
    (migrateOneResource m env st tr resource).2.1.resourcesByKind
      = tr.resourcesByKind := by
  unfold migrateOneResource
  by_cases hok : env.crdOk resource.Name
  · rw [if_pos hok]
    exact migrateItemList_resourcesByKind m resource.Name _ st tr
  · rw [if_neg hok]

theorem prioritiesLoopSome_resourcesByKind (m : MigratorCfg) (env : Cluster)
    (rset : Option (List String)) :
    ∀ (ps : List String) (byName : SMap APIResource)
      (st1 : TargetStore) (tr1 : CreatedItemsTracker) (outs1 : List Outcome)
      (st2 : TargetStore) (tr2 : CreatedItemsTracker) (outs2 : List Outcome),
      tr1.resourcesByKind = tr2.resourcesByKind →
      (prioritiesLoopSome m env rset ps byName st1 tr1 outs1).2.2.1.resourcesByKind
        = (prioritiesLoop m env ps byName st2 tr2 outs2).2.2.1.resourcesByKind := by
  intro ps
  induction ps with
  | nil => intro byName st1 tr1 outs1 st2 tr2 outs2 h; exact h
  | cons p rest ih =>
    intro byName st1 tr1 outs1 st2 tr2 outs2 h
    rw [prioritiesLoopSome, prioritiesLoop]
    refine ih _ _ _ _ _ _ _ ?_
    have hreg : (if (m.updateOwnerRefMappings.lookup p).isSome
          then tr1.registerResource ((byName.lookup p).getD zeroAPIResource) else tr1).resourcesByKind
        = (if (m.updateOwnerRefMappings.lookup p).isSome
          then tr2.registerResource ((byName.lookup p).getD zeroAPIResource) else tr2).resourcesByKind := by
      by_cases hflag : (m.updateOwnerRefMappings.lookup p).isSome
      · rw [if_pos hflag, if_pos hflag]
        unfold CreatedItemsTracker.registerResource
        rw [h]
      · rw [if_neg hflag, if_neg hflag]
        exact h
    by_cases hmem : stringSetHasOrNil rset p
    · rw [if_pos hmem]
      rw [migrateOneResource_resourcesByKind, migrateOneResource_resourcesByKind]
      exact hreg
    · rw [if_neg hmem]
      rw [migrateOneResource_resourcesByKind]
      exact hreg

theorem remainingLoopSome_resourcesByKind (m : MigratorCfg) (env : Cluster)
    (rset : Option (List String)) :
    ∀ (l : List (String × APIResource)) (st : TargetStore)
      (tr : CreatedItemsTracker) (outs : List Outcome),
      (remainingLoopSome m env rset l st tr outs).2.1.resourcesByKind
        = tr.resourcesByKind := by
  intro l
  induction l with
  | nil => intro st tr outs; rfl
  | cons e rest ih =>
    intro st tr outs
    rw [remainingLoopSome]
    rw [ih]
    by_cases hmem : stringSetHasOrNil rset e.2.Name
    · rw [if_pos hmem]
      exact migrateOneResource_resourcesByKind m env st tr e.2
    · rw [if_neg hmem]

theorem remainingLoop_resourcesByKind (m : MigratorCfg) (env : Cluster) :
    ∀ (l : List (String × APIResource)) (st : TargetStore)
      (tr : CreatedItemsTracker) (outs : List Outcome),
      (remainingLoop m env l st tr outs).2.1.resourcesByKind = tr.resourcesByKind := by
  intro l
  induction l with
  | nil => intro st tr outs; rfl
  | cons e rest ih =>
    intro st tr outs
    rw [remainingLoop]
    rw [ih]
    exact migrateOneResource_resourcesByKind m env st tr e.2

/-- **C9.** With a nil inclusion set, `MigrateSomeResources` is
`MigrateAllResources`; and for every inclusion set, the set changes neither
the fail-fast prechecks (the fatal outcome is identical) nor which kinds get
registered for owner-reference tracking. -/
theorem migrate_some_vs_all (m : MigratorCfg) (env : Cluster) (sortOrder : List String)
    (st : TargetStore) (tr : CreatedItemsTracker) :
    migrateSomeResources m env sortOrder none st tr
      = migrateAllResources m env sortOrder st tr ∧
    (∀ rset, (migrateSomeResources m env sortOrder rset st tr).fatal
      = (migrateAllResources m env sortOrder st tr).fatal) ∧
    (∀ rset, (migrateSomeResources m env sortOrder rset st tr).tracker.resourcesByKind
      = (migrateAllResources m env sortOrder st tr).tracker.resourcesByKind) := by
  cases hps : calculateResourcePriorities m.updateOwnerRefMappings sortOrder with
  | none =>
    refine ⟨?_, ?_, ?_⟩
    · unfold migrateSomeResources migrateAllResources
      simp only [hps]
    · intro rset
      unfold migrateSomeResources migrateAllResources
      simp only [hps]
    · intro rset
      unfold migrateSomeResources migrateAllResources
      simp only [hps]
  | some ps =>
    cases hf : ps.find?
        (fun r => ((buildByName env.serverResources).lookup r).isNone) with
    | some missing =>
      refine ⟨?_, ?_, ?_⟩
      · unfold migrateSomeResources migrateAllResources
        simp only [hps, hf]
      · intro rset
        unfold migrateSomeResources migrateAllResources
        simp only [hps, hf]
      · intro rset
        unfold migrateSomeResources migrateAllResources
        simp only [hps, hf]
    | none =>
      refine ⟨?_, ?_, ?_⟩
      · unfold migrateSomeResources migrateAllResources
        simp only [hps, hf]
        rw [prioritiesLoopSome_none_eq, remainingLoopSome_none_eq]
      · intro rset
        unfold migrateSomeResources migrateAllResources
        simp only [hps, hf]
      · intro rset
        unfold migrateSomeResources migrateAllResources
        simp only [hps, hf]
        rw [remainingLoopSome_resourcesByKind, remainingLoop_resourcesByKind]
        exact prioritiesLoopSome_resourcesByKind m env rset ps _ st tr [] st tr [] rfl

/-- Witness for `migrate_some_vs_all` on a one-resource cluster. -/
theorem migrate_some_vs_all_witness :
    migrateSomeResources exCfg ⟨[⟨"bars", "Bar", true⟩, ⟨"foos", "Foo", true⟩],
        fun _ => [], fun _ => true⟩ ["bars", "foos"] none exStore exTracker
      = migrateAllResources exCfg ⟨[⟨"bars", "Bar", true⟩, ⟨"foos", "Foo", true⟩],
        fun _ => [], fun _ => true⟩ ["bars", "foos"] exStore exTracker ∧
    (∀ rset, (migrateSomeResources exCfg ⟨[⟨"bars", "Bar", true⟩, ⟨"foos", "Foo", true⟩],
        fun _ => [], fun _ => true⟩ ["bars", "foos"] rset exStore exTracker).fatal
      = (migrateAllResources exCfg ⟨[⟨"bars", "Bar", true⟩, ⟨"foos", "Foo", true⟩],
        fun _ => [], fun _ => true⟩ ["bars", "foos"] exStore exTracker).fatal) ∧
    (∀ rset, (migrateSomeResources exCfg ⟨[⟨"bars", "Bar", true⟩, ⟨"foos", "Foo", true⟩],
        fun _ => [], fun _ => true⟩ ["bars", "foos"] rset exStore exTracker).tracker.resourcesByKind
      = (migrateAllResources exCfg ⟨[⟨"bars", "Bar", true⟩, ⟨"foos", "Foo", true⟩],
        fun _ => [], fun _ => true⟩ ["bars", "foos"] exStore exTracker).tracker.resourcesByKind) :=
  migrate_some_vs_all exCfg ⟨[⟨"bars", "Bar", true⟩, ⟨"foos", "Foo", true⟩],
    fun _ => [], fun _ => true⟩ ["bars", "foos"] exStore exTracker

/-- A small cluster for exercising whole passes. -/
def exEnv : Cluster :=
  ⟨[⟨"bars", "Bar", true⟩, ⟨"foos", "Foo", true⟩],
   fun r => if r == "foos" then [exItem] else [exBarItem],
   fun _ => true⟩

/-- Witness for `pass_idempotent`: store effect of a second pass over a
concrete cluster. -/
theorem pass_idempotent_witness :
    (migrateAllResources exCfg exEnv ["bars", "foos"]
        (migrateAllResources exCfg exEnv ["bars", "foos"] exStore exTracker).store
        (migrateAllResources exCfg exEnv ["bars", "foos"] exStore exTracker).tracker).store
      = (migrateAllResources exCfg exEnv ["bars", "foos"] exStore exTracker).store :=
  (pass_idempotent exCfg exEnv ["bars", "foos"] exStore exTracker).1

end CrdMigration
